import Mathlib

/-!
# The etcd backend of CoreDNS: `plugin/etcd/etcd.go`

A shallow embedding of `Etcd.Records`, `Etcd.loopNodes`, `Etcd.hasSubDomains`,
`Etcd.get` and `Etcd.TTL`, with the properties the specification states about them.

Conventions of the embedding.

* Go strings are Lean `String`s; the functions of package `strings` that the code
  calls are defined on the character lists, so that they compute by structural
  recursion.
* A Go `([]msg.Service, error)` result is the pair `List Service × Option GoError`
  (`none` is the `nil` error, `[]` the `nil` slice).
* `int8` arithmetic wraps around: see `int8`.
* The store is the etcd client `e.Client`; the answer of a read may depend on the reads
  issued before it, and every function that reads the store returns the list of the
  paths it read, in order.
* Functions of other packages (`dns.SplitDomainName`, `msg.Path`,
  `msg.PathWithWildcard`, `msg.PathSubDomain`, `msg.RootPathSubDomain`,
  `json.Unmarshal`) are the fields of a `Lib`, over which the theorems quantify.
-/

namespace CoreDNS

/-! ## Package `strings` and `fmt` -/

/-- Go `strings.HasPrefix(s, prefix)`. -/
def HasPrefix (s pre : String) : Bool :=
  pre.data.isPrefixOf s.data

/-- Whether `sub` occurs in `cs` at some position. -/
def containsChars (sub : List Char) : List Char → Bool
  | [] => sub.isPrefixOf []
  | c :: cs => sub.isPrefixOf (c :: cs) || containsChars sub cs

/-- Go `strings.Contains(s, substr)`. -/
def Contains (s substr : String) : Bool :=
  containsChars substr.data s.data

/-- The pieces of `cs` between the occurrences of `sep`; `cur` holds the characters of the
piece being read, last one first. -/
def splitChars (sep : Char) : List Char → List Char → List String
  | [], cur => [String.mk cur.reverse]
  | c :: cs, cur =>
    if c = sep then String.mk cur.reverse :: splitChars sep cs []
    else splitChars sep cs (c :: cur)

/-- Go `strings.Split(s, sep)` for a separator of one character. -/
def Split (s : String) (sep : Char) : List String :=
  splitChars sep s.data []

/-- Go `strings.Join(elems, sep)`. -/
def Join : List String → String → String
  | [], _ => ""
  | [a], _ => a
  | a :: b :: rest, sep => a ++ sep ++ Join (b :: rest) sep

/-! ## Machine integers -/

/-- The value of an integer after conversion to `int8` (two's complement wrap-around). -/
def int8 (x : Int) : Int :=
  (x + 128) % 256 - 128

/-- Go `uint32(x)` of an `int64`. -/
def uint32 (x : Int) : Nat :=
  (x % 4294967296).toNat

/-- Go `xs[i:]`: `none` is the run-time panic "slice bounds out of range". -/
def sliceFrom {α : Type} (xs : List α) (i : Int) : Option (List α) :=
  if 0 ≤ i ∧ i ≤ xs.length then some (xs.drop i.toNat) else none

/-! ## Data model -/

/-- A Go `error` value: an `etcdc.Error` (with its code and message), or an error that
carries only a text (`fmt.Errorf`, and every error of the transport). -/
inductive GoError where
  | etcd (Code : Nat) (Message : String)
  | errorString (s : String)
  deriving DecidableEq, Repr

/-- Constant `etcdc.ErrorCodeKeyNotFound`. -/
def ErrorCodeKeyNotFound : Nat := 100

/-- Function `etcdc.IsKeyNotFound`. -/
def IsKeyNotFound : GoError → Bool
  | .etcd code _ => code == ErrorCodeKeyNotFound
  | .errorString _ => false

/-- Modelled from the spec: the type `msg.Service` (declared in `plugin/etcd/msg`), with the
fields of the "Service Record" of the data model. -/
structure Service where
  Host : String
  Port : Int
  Priority : Int
  Weight : Int
  Text : String
  TTL : Nat
  Key : String
  deriving DecidableEq, Repr

/-- The type `etcdc.Node`, with the fields the code reads. -/
inductive Node where
  | mk (Key : String) (Dir : Bool) (Value : String) (Nodes : List Node) (TTL : Int)

namespace Node

/-- Field `Key`. -/
def Key : Node → String
  | mk k _ _ _ _ => k

/-- Field `Dir`. -/
def Dir : Node → Bool
  | mk _ d _ _ _ => d

/-- Field `Value`. -/
def Value : Node → String
  | mk _ _ v _ _ => v

/-- Field `Nodes`. -/
def Nodes : Node → List Node
  | mk _ _ _ ns _ => ns

/-- Field `TTL`. -/
def TTL : Node → Int
  | mk _ _ _ _ t => t

end Node

/-- The type `etcdc.Response`. -/
structure Response where
  Node : Node

/-- The method `Get` of `etcdc.KeysAPI`: the answer to a read of `path`, given the paths read
before it. -/
structure KeysAPI where
  Get : List String → String → Bool → Except GoError Response

/-- The functions of other packages that the code calls. -/
structure Lib where
  /-- Function `dns.SplitDomainName`. -/
  SplitDomainName : String → List String
  /-- Function `msg.Path`. -/
  Path : String → String → String
  /-- Function `msg.PathWithWildcard`. -/
  PathWithWildcard : String → String → String × Bool
  /-- Function `msg.PathSubDomain`. -/
  PathSubDomain : String → Int → List String → String
  /-- Function `msg.RootPathSubDomain`. -/
  RootPathSubDomain : String → Int → String → String
  /-- Function `json.Unmarshal` into a new `msg.Service`: the decoded record, or the text of
  the decoder's error. -/
  Unmarshal : String → Except String Service

/-- The type `Etcd`, with the fields the code reads. -/
structure Etcd where
  Zones : List String
  PathPrefix : String
  Client : KeysAPI
  WildcardBound : Int

/-- The type `request.Request`, as the values of its methods `Name` and `QType`. -/
structure Request where
  Name : String
  QType : Nat

/-- Constant `dns.TypeTXT`. -/
def TypeTXT : Nat := 16

/-- Default priority when nothing is set. -/
def priority : Int := 10

/-- Default ttl when nothing is set. -/
def ttl : Nat := 300

/-! ## `Etcd.TTL` -/

/-- TTL returns the smaller of the etcd TTL and the service's TTL. If neither of these are
set (have a zero value), a default is used. -/
def TTL (node : Node) (serv : Service) : Nat :=
  let etcdTTL := uint32 node.TTL
  if etcdTTL = 0 ∧ serv.TTL = 0 then ttl
  else if etcdTTL = 0 then serv.TTL
  else if serv.TTL = 0 then etcdTTL
  else if etcdTTL < serv.TTL then etcdTTL
  else serv.TTL

/-! ## `Etcd.loopNodes` -/

/-- A Go result `([]msg.Service, error)`. -/
abbrev Ret := List Service × Option GoError

/-- The loop over `nameParts` of `loopNodes` (taken when `star` is true), from index `i` on:
`false` is `continue Nodes`, `true` is the end of the loop. -/
def matchParts (keyParts : List String) : Nat → List String → Bool
  | _, [] => true
  | i, n :: rest =>
    if (i : Int) > (keyParts.length : Int) - 1 then false
    else if n = "*" ∨ n = "any" then matchParts keyParts (i + 1) rest
    else if keyParts.getD i "" ≠ n then false
    else matchParts keyParts (i + 1) rest

/-- Lines 187-217 of `loopNodes`, one iteration of the loop `Nodes` on a node `n` that is not
a directory, with the records `sx` appended so far and the map `bx` of the records seen so
far (its keys): an error is the `return nil, err` of the code, no error is the start of the
next iteration. -/
def loopNodes.leaf (lib : Lib) (nameParts : List String) (star : Bool) (n : Node)
    (sx bx : List Service) : Ret × List Service :=
  if star && !matchParts (Split n.Key '/') 0 nameParts then ((sx, none), bx)
  else
    match lib.Unmarshal n.Value with
    | .error err => (([], some (.errorString (n.Key ++ ": " ++ err))), bx)
    | .ok serv =>
      let b : Service :=
        { Host := serv.Host, Port := serv.Port, Priority := serv.Priority,
          Weight := serv.Weight, Text := serv.Text, TTL := 0, Key := n.Key }
      if b ∈ bx then ((sx, none), bx)
      else
        let serv1 := { serv with Key := n.Key }
        let serv2 := { serv1 with TTL := TTL n serv1 }
        let serv3 := if serv2.Priority = 0 then { serv2 with Priority := priority } else serv2
        ((sx ++ [serv3], none), b :: bx)

mutual
/-- One iteration of the loop `Nodes` of `loopNodes`, on the node `n`: a directory is
walked by the recursive call, which shares the map `bx`. -/
def loopNodes.body (lib : Lib) (nameParts : List String) (star : Bool) :
    Node → List Service → List Service → Ret × List Service
  | .mk key dir value nodes nttl, sx, bx =>
    if dir then
      match loopNodes.loop lib nameParts star nodes [] bx with
      | ((_, some err), bx1) => (([], some err), bx1)
      | ((found, none), bx1) => ((sx ++ found, none), bx1)
    else loopNodes.leaf lib nameParts star (.mk key dir value nodes nttl) sx bx
termination_by structural n => n
/-- The loop `Nodes` of `loopNodes` over the nodes still to visit. -/
def loopNodes.loop (lib : Lib) (nameParts : List String) (star : Bool) :
    List Node → List Service → List Service → Ret × List Service
  | [], sx, bx => ((sx, none), bx)
  | n :: ns, sx, bx =>
    match loopNodes.body lib nameParts star n sx bx with
    | ((_, some err), bx1) => (([], some err), bx1)
    | ((sx1, none), bx1) => loopNodes.loop lib nameParts star ns sx1 bx1
termination_by structural ns => ns
end

/-- loopNodes recursively loops through the nodes and returns all the values. The nodes'
keyname will be match against any wildcards when star is true. The map `bx` is the list of
its keys (`[]` for the `nil` map, which the code replaces by an empty one). -/
def loopNodes (lib : Lib) (ns : List Node) (nameParts : List String) (star : Bool)
    (bx : List Service) : Ret :=
  (loopNodes.loop lib nameParts star ns [] bx).1

/-! ## `Etcd.get` and `Etcd.hasSubDomains` -/

/-- Method `get`, a wrapper for `client.Get`: the answer of the client after the reads
`log`, and the log with this read added. -/
def Etcd.get (e : Etcd) (log : List String) (path : String) (recursive : Bool) :
    Except GoError Response × List String :=
  (e.Client.Get log path recursive, log ++ [path])

/-- Method `hasSubDomains`: the path of the subtree of the name when the store has entries
below it, else the empty string. -/
def Etcd.hasSubDomains (lib : Lib) (e : Etcd) (log : List String) (name : String) :
    String × List String :=
  let p := lib.RootPathSubDomain name e.WildcardBound e.PathPrefix
  match e.get log p true with
  | (.error _, log1) => ("", log1)
  | (.ok resp, log1) => if resp.Node.Nodes.length > 0 then (p, log1) else ("", log1)

/-! ## `Etcd.Records` -/

/-- The loop of lines 106-112 of `Records`: the name of an ACME challenge, rebuilt from its
labels `temp`. -/
def acmeName (temp : List String) (name : String) : String :=
  temp.enum.foldl
    (fun name iv => if iv.1 = 0 then iv.2 ++ "._txt" else iv.2 ++ "." ++ name) name

/-- Lines 87-96 of `Records`: the name to look up, `subPath`, `hasSubDomain` and the reads
issued; `none` is a run-time panic of the slice expression. -/
def Etcd.planWildcard (lib : Lib) (e : Etcd) (name : String) (qType : Nat) :
    Option (String × String × Bool × List String) :=
  let temp := lib.SplitDomainName name
  let start := int8 (int8 temp.length - e.WildcardBound)
  if e.WildcardBound > 0 ∧ qType ≠ TypeTXT ∧ start > 0 then
    match e.hasSubDomains lib [] name with
    | (subPath, log) =>
      if subPath ≠ "" ∧ !Contains name "*" then some (name, subPath, true, log)
      else
        match sliceFrom temp start with
        | none => none
        | some upper => some ("*." ++ Join upper ".", subPath, false, log)
  else some (name, "", false, [])

/-- Lines 98-113 of `Records`: the name handed to the construction of the path. -/
def acmeRewrite (lib : Lib) (name : String) (qType : Nat) : String :=
  if qType = TypeTXT ∧ Contains name "_acme-challenge" then
    acmeName (lib.SplitDomainName name) name
  else name

/-- Lines 115-125 of `Records`: the path to read, the segments to match and `star`. -/
def Etcd.planPath (lib : Lib) (e : Etcd) (name subPath : String) (hasSubDomain : Bool) :
    String × List String × Bool :=
  if !hasSubDomain then
    ((lib.PathWithWildcard name e.PathPrefix).1,
      Split (lib.Path name e.PathPrefix) '/',
      (lib.PathWithWildcard name e.PathPrefix).2)
  else
    let path := lib.PathSubDomain subPath e.WildcardBound (lib.SplitDomainName name)
    (path, Split path '/', false)

/-- Lines 127-151 of `Records`: the read of the planned path, the fallback read, and the
walk of what was fetched. -/
def Etcd.readAndWalk (lib : Lib) (e : Etcd) (exact : Bool) (name : String)
    (hasSubDomain : Bool) (path : String) (segments : List String) (star : Bool)
    (log : List String) : Option (Ret × List String) :=
  match e.get log path true with
  | (.error err, log1) =>
    if hasSubDomain ∧ IsKeyNotFound err then
      let temp := lib.SplitDomainName name
      match sliceFrom temp (int8 (int8 temp.length - e.WildcardBound)) with
      | none => none
      | some upper =>
        let name := "*." ++ Join upper "."
        let path := (lib.PathWithWildcard name e.PathPrefix).1
        let star := (lib.PathWithWildcard name e.PathPrefix).2
        let segments := Split (lib.Path name e.PathPrefix) '/'
        match e.get log1 path true with
        | (.error err, log2) => some (([], some err), log2)
        | (.ok resp, log2) => some (loopNodes lib resp.Node.Nodes segments star [], log2)
    else some (([], some err), log1)
  | (.ok r, log1) =>
    if exact ∧ r.Node.Dir then some (([], none), log1)
    else if r.Node.Dir then some (loopNodes lib r.Node.Nodes segments star [], log1)
    else some (loopNodes lib [r.Node] segments false [], log1)

/-- Records looks up records in etcd. If exact is true, it will lookup just this name. The
result is what `Records` returns together with the paths it read from the store, in order;
`none` is a run-time panic. -/
def Etcd.Records (lib : Lib) (e : Etcd) (state : Request) (exact : Bool) :
    Option (Ret × List String) :=
  let name := state.Name
  let qType := state.QType
  if e.Zones.any (fun zone => HasPrefix name zone) then some (([], none), [])
  else
    match e.planWildcard lib name qType with
    | none => none
    | some (name, subPath, hasSubDomain, log) =>
      let name := acmeRewrite lib name qType
      match e.planPath lib name subPath hasSubDomain with
      | (path, segments, star) => e.readAndWalk lib exact name hasSubDomain path segments star log

/-- Method `IsNameError`. -/
def IsNameError (err : GoError) : Bool :=
  match err with
  | .etcd code _ => code == ErrorCodeKeyNotFound
  | .errorString _ => false

/-! ## Notions of the specification -/

mutual
/-- The leaves at or below a node, in depth-first, left-to-right order: a node that is not a
directory is a leaf, a directory stands for the leaves of its children. -/
def Node.leaves : Node → List Node
  | .mk key dir value nodes nttl =>
    if dir then leaves nodes else [.mk key dir value nodes nttl]
termination_by structural n => n
/-- The leaves of a forest of nodes, in depth-first, left-to-right order. -/
def leaves : List Node → List Node
  | [] => []
  | n :: ns => Node.leaves n ++ leaves ns
termination_by structural ns => ns
end

/-- The positional wildcard match of the specification: the query has no more segments than
the key, and every query segment is `*`, `any`, or the key's segment at that position. -/
def wildcardKeep (nameParts keyParts : List String) : Prop :=
  nameParts.length ≤ keyParts.length ∧
    ∀ (i : Nat) (n : String),
      nameParts[i]? = some n → n = "*" ∨ n = "any" ∨ keyParts[i]? = some n

/-- A leaf passes the filter of the walk: there is no filter unless `star` is true. -/
def passesFilter (nameParts : List String) (star : Bool) (n : Node) : Prop :=
  star = true → wildcardKeep nameParts (Split n.Key '/')

/-- The record the walk emits for a leaf `n` whose payload decodes to `d`: the key of the
leaf, the TTL of the TTL rule, and the default priority in place of a zero priority. -/
def emitted (n : Node) (d : Service) : Service :=
  { Host := d.Host, Port := d.Port,
    Priority := if d.Priority = 0 then 10 else d.Priority,
    Weight := d.Weight, Text := d.Text,
    TTL := TTL n { d with Key := n.Key }, Key := n.Key }

/-- The comparison tuple of the deduplication for a leaf `n` whose payload decodes to `d`:
the key `b` of the map `bx`. -/
def dedupKey (n : Node) (d : Service) : Service :=
  { Host := d.Host, Port := d.Port, Priority := d.Priority, Weight := d.Weight,
    Text := d.Text, TTL := 0, Key := n.Key }

/-- The walk of a flat list of leaves: `loopNodes.leaf` on each of them in turn, up to the
first error. -/
def walkLeaves (lib : Lib) (nameParts : List String) (star : Bool) :
    List Node → List Service → List Service → Ret × List Service
  | [], sx, bx => ((sx, none), bx)
  | n :: ns, sx, bx =>
    match loopNodes.leaf lib nameParts star n sx bx with
    | ((_, some err), bx1) => (([], some err), bx1)
    | ((sx1, none), bx1) => walkLeaves lib nameParts star ns sx1 bx1

/-- The rightmost `b` labels of a name. -/
def rightmost (b : Int) (labels : List String) : List String :=
  labels.drop (labels.length - b.toNat)

/-- The generic-wildcard name of a name: `*.` and its rightmost `b` labels joined by dots. -/
def wildcardName (b : Int) (labels : List String) : String :=
  "*." ++ Join (rightmost b labels) "."

/-- The string `sub` occurs in the string `s`. -/
def occursIn (sub s : String) : Prop :=
  ∃ a b : String, s = a ++ sub ++ b

/-- The root path of the probe for a name: `msg.RootPathSubDomain` of the name, the bound
and the prefix. -/
def probeRoot (lib : Lib) (e : Etcd) (name : String) : String :=
  lib.RootPathSubDomain name e.WildcardBound e.PathPrefix

/-- The flattened-subdomain path of a name: `msg.PathSubDomain` of the probe root, the bound
and all the labels of the name. -/
def flatPath (lib : Lib) (e : Etcd) (name : String) : String :=
  lib.PathSubDomain (probeRoot lib e name) e.WildcardBound (lib.SplitDomainName name)

/-- The walk of a fetched node when the filter is off: nothing for a directory of an exact
query, the children of a directory, or the node itself. -/
def walkUnfiltered (lib : Lib) (exact : Bool) (node : Node) (segments : List String) : Ret :=
  if exact ∧ node.Dir then ([], none)
  else if node.Dir then loopNodes lib node.Nodes segments false []
  else loopNodes lib [node] segments false []

/-- The flattened-subdomain plan of a query, as the specification states it: `Records` reads
the probe root and then the flattened-subdomain path, and when that read succeeds it returns
the walk of the fetched node with the filter off. -/
def readsFlattened (lib : Lib) (e : Etcd) (state : Request) (exact : Bool) : Prop :=
  (∃ r, e.Records lib state exact = some r ∧
    r.2.take 2 = [probeRoot lib e state.Name, flatPath lib e state.Name]) ∧
  (∀ resp, e.Client.Get [probeRoot lib e state.Name] (flatPath lib e state.Name) true =
      .ok resp →
    e.Records lib state exact =
      some (walkUnfiltered lib exact resp.Node (Split (flatPath lib e state.Name) '/'),
        [probeRoot lib e state.Name, flatPath lib e state.Name]))

/-- Two records agree on all of `Host`, `Port`, `Priority`, `Weight`, `Text` and `Key`. -/
def sameSix (a b : Service) : Prop :=
  a.Host = b.Host ∧ a.Port = b.Port ∧ a.Priority = b.Priority ∧ a.Weight = b.Weight ∧
    a.Text = b.Text ∧ a.Key = b.Key

/-- A list of records is deduplicated: no two of its records agree on all of `Host`, `Port`,
`Priority`, `Weight`, `Text` and `Key`. -/
def deduplicated (l : List Service) : Prop :=
  l.Pairwise (fun a b => ¬ sameSix a b)

/-- The key of a record passes the positional wildcard match against the query segments, as
the loop of the code decides it. -/
def keepKey (nameParts : List String) (s : Service) : Bool :=
  matchParts (Split s.Key '/') 0 nameParts

/-- The guard of the probe, as the specification states it: a positive bound, a query that is
not a TXT query, and a name with more labels than the bound. -/
def probeGuard (lib : Lib) (e : Etcd) (state : Request) : Prop :=
  0 < e.WildcardBound ∧ state.QType ≠ TypeTXT ∧
    e.WildcardBound < (lib.SplitDomainName state.Name).length

/-- No configured zone is a literal prefix of the name. -/
def noZonePrefix (e : Etcd) (name : String) : Prop :=
  ∀ zone ∈ e.Zones, ¬ ∃ rest : String, name = zone ++ rest

/-! ## A library for the examples -/

/-- Modelled from the spec: `dns.SplitDomainName` (package `github.com/miekg/dns`, not under
`src/`): the labels of a name, its dot-delimited components. -/
def modelSplitDomainName (s : String) : List String :=
  (Split s '.').filter (fun l => l ≠ "")

/-- Modelled from the spec: `msg.Path` (package `plugin/etcd/msg`, not under `src/`): the
labels of the name in reverse order, root-most first, joined with the prefix. -/
def modelPath (s pre : String) : String :=
  "/" ++ Join (pre :: (modelSplitDomainName s).reverse) "/"

/-- Modelled from the spec: `msg.PathWithWildcard` (package `plugin/etcd/msg`, not under
`src/`): the path of the name, and whether one of its labels is the wildcard label `*`. -/
def modelPathWithWildcard (s pre : String) : String × Bool :=
  (modelPath s pre, (modelSplitDomainName s).contains "*")

/-- Modelled from the spec: `msg.RootPathSubDomain` (package `plugin/etcd/msg`, not under
`src/`), the root path of the flattened-subdomain subtree of the stable suffix. The spec
does not fix the layout; this one serves the examples only. -/
def modelRootPathSubDomain (s : String) (b : Int) (pre : String) : String :=
  "/" ++ Join (pre :: "_sub" :: (rightmost b (modelSplitDomainName s)).reverse) "/"

/-- Modelled from the spec: `msg.PathSubDomain` (package `plugin/etcd/msg`, not under `src/`),
the flattened-subdomain path built from all labels under the root of the stable suffix.
The spec does not fix the layout; this one serves the examples only. -/
def modelPathSubDomain (root : String) (b : Int) (labels : List String) : String :=
  root ++ "/" ++ Join (labels.take (labels.length - b.toNat)) "."

/-- A decoder for the examples, in place of `json.Unmarshal`: it knows three payloads. -/
def exampleUnmarshal (value : String) : Except String Service :=
  if value = "\x7b\"host\":\"10.0.0.1\"\x7d" then
    .ok { Host := "10.0.0.1", Port := 0, Priority := 0, Weight := 0, Text := "", TTL := 0,
          Key := "" }
  else if value = "\x7b\"host\":\"10.0.0.2\",\"priority\":20,\"ttl\":60\x7d" then
    .ok { Host := "10.0.0.2", Port := 0, Priority := 20, Weight := 0, Text := "", TTL := 60,
          Key := "" }
  else .error "unexpected end of JSON input"

/-- The library of the examples. -/
def exampleLib : Lib :=
  { SplitDomainName := modelSplitDomainName
    Path := modelPath
    PathWithWildcard := modelPathWithWildcard
    PathSubDomain := modelPathSubDomain
    RootPathSubDomain := modelRootPathSubDomain
    Unmarshal := exampleUnmarshal }

/-- A leaf with the payload of host `10.0.0.1`. -/
def leaf1 (key : String) (nttl : Int) : Node :=
  .mk key false "\x7b\"host\":\"10.0.0.1\"\x7d" [] nttl

/-- A leaf with the payload of host `10.0.0.2`, priority 20 and TTL 60. -/
def leaf2 (key : String) (nttl : Int) : Node :=
  .mk key false "\x7b\"host\":\"10.0.0.2\",\"priority\":20,\"ttl\":60\x7d" [] nttl

/-- A leaf whose payload does not decode. -/
def badLeaf (key : String) : Node :=
  .mk key false "" [] 0

/-- A directory. -/
def dir (key : String) (nodes : List Node) : Node :=
  .mk key true "" nodes 0

/-- The etcd error "key not found". -/
def keyNotFound : GoError := .etcd 100 "Key not found"

/-- A store that answers the first read with `r0`, the second with `r1` and every later one
with `r2`, whatever the path. -/
def storeOf (r0 r1 r2 : Except GoError Response) : KeysAPI :=
  { Get := fun log _ _ =>
      match log with
      | [] => r0
      | [_] => r1
      | _ => r2 }

/-- A configuration for the examples: zone `lb.rancher.cloud.`, prefix `skydns`. -/
def exampleEtcd (client : KeysAPI) (b : Int) : Etcd :=
  { Zones := ["lb.rancher.cloud."], PathPrefix := "skydns", Client := client,
    WildcardBound := b }

/-- A store for the examples: the probe finds a subtree, the read of the flattened path
misses, and the fallback read returns a directory with two leaves. -/
def missStore : KeysAPI :=
  storeOf
    (.ok ⟨dir "/skydns/_sub/cloud/rancher/lb/a1"
      [leaf1 "/skydns/_sub/cloud/rancher/lb/a1/www" 0]⟩)
    (.error keyNotFound)
    (.ok ⟨dir "/skydns/cloud/rancher/lb/a1"
      [leaf1 "/skydns/cloud/rancher/lb/a1/x1" 0, leaf2 "/skydns/cloud/rancher/lb/a1/x2" 0]⟩)

/-- A store for the examples: the probe finds a subtree, and the next read returns a
directory with one leaf. -/
def hitStore : KeysAPI :=
  storeOf
    (.ok ⟨dir "/skydns/_sub/cloud/rancher/lb/a1"
      [leaf1 "/skydns/_sub/cloud/rancher/lb/a1/www" 0]⟩)
    (.ok ⟨dir "/skydns/_sub/cloud/rancher/lb/a1/api"
      [leaf1 "/skydns/_sub/cloud/rancher/lb/a1/api/x1" 0]⟩)
    (.error keyNotFound)

/-- A store for the examples: the probe finds a subtree, and the next read returns the
directory of the stable suffix with one leaf. -/
def wildStore : KeysAPI :=
  storeOf
    (.ok ⟨dir "/skydns/_sub/cloud/rancher/lb/a1"
      [leaf1 "/skydns/_sub/cloud/rancher/lb/a1/www" 0]⟩)
    (.ok ⟨dir "/skydns/cloud/rancher/lb/a1" [leaf1 "/skydns/cloud/rancher/lb/a1/x1" 0]⟩)
    (.error keyNotFound)

/-- A store for the examples in which every read misses. -/
def emptyStore : KeysAPI :=
  storeOf (.error keyNotFound) (.error keyNotFound) (.error keyNotFound)

/-- A store for the examples in which every read returns the same leaf. -/
def leafStore : KeysAPI :=
  storeOf (.ok ⟨leaf1 "/skydns/cloud/rancher/lb/a1/api" 0⟩)
    (.ok ⟨leaf1 "/skydns/cloud/rancher/lb/a1/api" 0⟩)
    (.ok ⟨leaf1 "/skydns/cloud/rancher/lb/a1/api" 0⟩)

/-- The record of `leaf1` at a key, as emitted. -/
def record1 (key : String) : Service :=
  ⟨"10.0.0.1", 0, 10, 0, "", 300, key⟩

/-- The record of `leaf2` at a key, as emitted. -/
def record2 (key : String) : Service :=
  ⟨"10.0.0.2", 0, 20, 0, "", 60, key⟩

/-- The payload of `leaf1`, decoded. -/
def payload1 : Service :=
  ⟨"10.0.0.1", 0, 0, 0, "", 0, ""⟩

/-- The error of a read that ran into the timeout. -/
def deadlineExceeded : GoError := .errorString "context deadline exceeded"

/-- A store for the examples: the probe fails with a timeout, and the next read returns the
directory of the stable suffix with one leaf. -/
def probeFailStore : KeysAPI :=
  storeOf (.error deadlineExceeded)
    (.ok ⟨dir "/skydns/cloud/rancher/lb/a1" [leaf1 "/skydns/cloud/rancher/lb/a1/x1" 0]⟩)
    (.error keyNotFound)

/-- A store for the examples: the probe finds a subtree, and the read of the flattened path
fails with a timeout. -/
def timeoutStore : KeysAPI :=
  storeOf
    (.ok ⟨dir "/skydns/_sub/cloud/rancher/lb/a1"
      [leaf1 "/skydns/_sub/cloud/rancher/lb/a1/www" 0]⟩)
    (.error deadlineExceeded)
    (.ok ⟨dir "/skydns/cloud/rancher/lb/a1" [leaf1 "/skydns/cloud/rancher/lb/a1/x1" 0]⟩)

/-- A store for the examples in which every read returns the leaf `/skydns/cloud/rancher/lb/a1`. -/
def apexLeafStore : KeysAPI :=
  storeOf (.ok ⟨leaf1 "/skydns/cloud/rancher/lb/a1" 0⟩)
    (.ok ⟨leaf1 "/skydns/cloud/rancher/lb/a1" 0⟩)
    (.ok ⟨leaf1 "/skydns/cloud/rancher/lb/a1" 0⟩)

/-! ## Lemmas -/

theorem loop_nil (lib : Lib) (nameParts : List String) (star : Bool) (sx bx : List Service) :
    loopNodes.loop lib nameParts star [] sx bx = ((sx, none), bx) := by
  simp [loopNodes.loop]

theorem loop_cons (lib : Lib) (nameParts : List String) (star : Bool) (n : Node)
    (ns : List Node) (sx bx : List Service) :
    loopNodes.loop lib nameParts star (n :: ns) sx bx =
      match loopNodes.body lib nameParts star n sx bx with
      | ((_, some err), bx1) => (([], some err), bx1)
      | ((sx1, none), bx1) => loopNodes.loop lib nameParts star ns sx1 bx1 := by
  simp [loopNodes.loop]

theorem body_leaf (lib : Lib) (nameParts : List String) (star : Bool) (n : Node)
    (sx bx : List Service) (h : n.Dir = false) :
    loopNodes.body lib nameParts star n sx bx = loopNodes.leaf lib nameParts star n sx bx := by
  cases n with
  | mk key d value nodes nttl =>
    simp only [Node.Dir] at h
    subst h
    simp [loopNodes.body]

theorem body_dir (lib : Lib) (nameParts : List String) (star : Bool) (key value : String)
    (nodes : List Node) (nttl : Int) (sx bx : List Service) :
    loopNodes.body lib nameParts star (.mk key true value nodes nttl) sx bx =
      match loopNodes.loop lib nameParts star nodes [] bx with
      | ((_, some err), bx1) => (([], some err), bx1)
      | ((found, none), bx1) => ((sx ++ found, none), bx1) := by
  simp [loopNodes.body]

/-- An iteration on a leaf that ends in an error returns no record. -/
theorem leaf_error_nil (lib : Lib) (nameParts : List String) (star : Bool) (n : Node)
    (sx bx bx1 : List Service) (f : List Service) (err : GoError)
    (h : loopNodes.leaf lib nameParts star n sx bx = ((f, some err), bx1)) : f = [] := by
  unfold loopNodes.leaf at h
  split at h
  · simp at h
  · split at h
    · simp at h
      exact h.1.1
    · simp only at h
      split at h <;> simp at h

/-- The records appended so far pass through an iteration on a leaf untouched. -/
theorem leaf_acc (lib : Lib) (nameParts : List String) (star : Bool) (n : Node)
    (sx bx : List Service) :
    loopNodes.leaf lib nameParts star n sx bx =
      match loopNodes.leaf lib nameParts star n [] bx with
      | ((_, some err), bx1) => (([], some err), bx1)
      | ((found, none), bx1) => ((sx ++ found, none), bx1) := by
  unfold loopNodes.leaf
  split
  · simp
  · split
    · simp
    · simp only
      split <;> simp

theorem walk_acc (lib : Lib) (nameParts : List String) (star : Bool) (ls : List Node) :
    ∀ sx bx : List Service,
      walkLeaves lib nameParts star ls sx bx =
        match walkLeaves lib nameParts star ls [] bx with
        | ((_, some err), bx1) => (([], some err), bx1)
        | ((found, none), bx1) => ((sx ++ found, none), bx1) := by
  induction ls with
  | nil => intro sx bx; simp [walkLeaves]
  | cons n ns ih =>
    intro sx bx
    simp only [walkLeaves]
    rw [leaf_acc lib nameParts star n sx bx]
    rcases h : loopNodes.leaf lib nameParts star n [] bx with ⟨⟨f, _ | err⟩, b1⟩
    · simp only
      rw [ih (sx ++ f) b1, ih f b1]
      rcases walkLeaves lib nameParts star ns [] b1 with ⟨⟨g, _ | err⟩, b2⟩ <;> simp
    · simp

theorem walk_append (lib : Lib) (nameParts : List String) (star : Bool) (l1 l2 : List Node) :
    ∀ sx bx : List Service,
      walkLeaves lib nameParts star (l1 ++ l2) sx bx =
        match walkLeaves lib nameParts star l1 sx bx with
        | ((_, some err), bx1) => (([], some err), bx1)
        | ((sx1, none), bx1) => walkLeaves lib nameParts star l2 sx1 bx1 := by
  induction l1 with
  | nil => intro sx bx; simp [walkLeaves]
  | cons n ns ih =>
    intro sx bx
    simp only [List.cons_append, walkLeaves]
    rcases h : loopNodes.leaf lib nameParts star n sx bx with ⟨⟨f, _ | err⟩, b1⟩
    · simp only
      exact ih f b1
    · simp

theorem walk_single (lib : Lib) (nameParts : List String) (star : Bool) (n : Node)
    (sx bx : List Service) :
    walkLeaves lib nameParts star [n] sx bx = loopNodes.leaf lib nameParts star n sx bx := by
  simp only [walkLeaves]
  rcases h : loopNodes.leaf lib nameParts star n sx bx with ⟨⟨f, _ | err⟩, b1⟩
  · rfl
  · have := leaf_error_nil lib nameParts star n sx bx b1 f err h
    subst this
    rfl

mutual
/-- One iteration of the loop on a node is the walk of the leaves at or below that node. -/
theorem body_eq_walk (lib : Lib) (nameParts : List String) (star : Bool) :
    ∀ (n : Node) (sx bx : List Service),
      loopNodes.body lib nameParts star n sx bx =
        walkLeaves lib nameParts star (Node.leaves n) sx bx
  | .mk key d value nodes nttl, sx, bx => by
    cases d with
    | true =>
      rw [body_dir, loop_eq_walk lib nameParts star nodes [] bx]
      simp only [Node.leaves, if_true]
      exact (walk_acc lib nameParts star (leaves nodes) sx bx).symm
    | false =>
      rw [body_leaf lib nameParts star (.mk key false value nodes nttl) sx bx rfl]
      simp only [Node.leaves, Bool.false_eq_true, if_false]
      exact (walk_single lib nameParts star _ sx bx).symm
/-- The loop over a forest is the walk of the leaves of the forest. -/
theorem loop_eq_walk (lib : Lib) (nameParts : List String) (star : Bool) :
    ∀ (ns : List Node) (sx bx : List Service),
      loopNodes.loop lib nameParts star ns sx bx =
        walkLeaves lib nameParts star (leaves ns) sx bx
  | [], sx, bx => by simp [loopNodes.loop, leaves, walkLeaves]
  | n :: ns, sx, bx => by
    rw [loop_cons, body_eq_walk lib nameParts star n sx bx]
    simp only [leaves]
    rw [walk_append]
    rcases walkLeaves lib nameParts star (Node.leaves n) sx bx with ⟨⟨f, _ | err⟩, b1⟩
    · simp only
      exact loop_eq_walk lib nameParts star ns f b1
    · rfl
end

/-- The loop over the query segments, from index `i` on, accepts exactly when every
remaining segment has a key segment at its position and is a wildcard token or equal
to it. -/
theorem matchParts_iff (keyParts : List String) :
    ∀ (parts : List String) (i : Nat),
      matchParts keyParts i parts = true ↔
        ∀ (j : Nat) (n : String), parts[j]? = some n →
          i + j < keyParts.length ∧ (n = "*" ∨ n = "any" ∨ keyParts[i + j]? = some n) := by
  intro parts
  induction parts with
  | nil => intro i; simp [matchParts]
  | cons p rest ih =>
    intro i
    unfold matchParts
    constructor
    · intro h
      split at h
      · simp at h
      · rename_i hlt
        have hi : i < keyParts.length := by omega
        have hrest : matchParts keyParts (i + 1) rest = true ∧
            (p = "*" ∨ p = "any" ∨ keyParts[i]? = some p) := by
          split at h
          · rename_i hw
            rcases hw with hw | hw
            · exact ⟨h, Or.inl hw⟩
            · exact ⟨h, Or.inr (Or.inl hw)⟩
          · split at h
            · simp at h
            · rename_i hne
              refine ⟨h, Or.inr (Or.inr ?_)⟩
              have : keyParts.getD i "" = p := by simpa using hne
              rw [List.getD_eq_getElem?_getD] at this
              rw [List.getElem?_eq_getElem hi] at this ⊢
              simpa using this
        intro j n hj
        cases j with
        | zero =>
          simp at hj
          subst hj
          exact ⟨by simpa using hi, by simpa using hrest.2⟩
        | succ j =>
          simp at hj
          have := (ih (i + 1)).1 hrest.1 j n hj
          have e : i + 1 + j = i + (j + 1) := by omega
          rw [e] at this
          exact this
    · intro h
      have h0 := h 0 p (by simp)
      have hi : i < keyParts.length := by simpa using h0.1
      have hrest : matchParts keyParts (i + 1) rest = true := by
        rw [ih (i + 1)]
        intro j n hj
        have := h (j + 1) n (by simpa using hj)
        have e : i + 1 + j = i + (j + 1) := by omega
        rw [e]
        exact this
      split
      · omega
      · split
        · exact hrest
        · rename_i hw
          split
          · rename_i hne
            exfalso
            rcases h0.2 with h1 | h1 | h1
            · exact hw (Or.inl h1)
            · exact hw (Or.inr h1)
            · apply hne
              rw [List.getD_eq_getElem?_getD]
              simp only [Nat.add_zero] at h1
              rw [h1]
              rfl
          · exact hrest

/-- The loop over the query segments decides the positional wildcard match. -/
theorem matchParts_iff_keep (nameParts keyParts : List String) :
    matchParts keyParts 0 nameParts = true ↔ wildcardKeep nameParts keyParts := by
  rw [matchParts_iff]
  unfold wildcardKeep
  constructor
  · intro h
    constructor
    · by_contra hlen
      have hlt : keyParts.length < nameParts.length := by omega
      have := h keyParts.length (nameParts[keyParts.length]) (List.getElem?_eq_getElem hlt)
      omega
    · intro i n hn
      have := (h i n hn).2
      simpa using this
  · intro h j n hj
    have hj2 : j < nameParts.length := by
      by_contra hc
      rw [List.getElem?_eq_none (by omega)] at hj
      exact absurd hj (by simp)
    refine ⟨by omega, ?_⟩
    simpa using h.2 j n hj

/-- With `star` false an iteration on a leaf applies no filter; with `star` true it applies
the positional wildcard match. -/
theorem leaf_star_keep (lib : Lib) (nameParts : List String) (n : Node) (sx bx : List Service)
    (h : wildcardKeep nameParts (Split n.Key '/')) :
    loopNodes.leaf lib nameParts true n sx bx = loopNodes.leaf lib nameParts false n sx bx := by
  have hm := (matchParts_iff_keep nameParts (Split n.Key '/')).2 h
  simp [loopNodes.leaf, hm]

theorem leaf_star_skip (lib : Lib) (nameParts : List String) (n : Node) (sx bx : List Service)
    (h : ¬ wildcardKeep nameParts (Split n.Key '/')) :
    loopNodes.leaf lib nameParts true n sx bx = ((sx, none), bx) := by
  have hm : matchParts (Split n.Key '/') 0 nameParts = false := by
    cases hc : matchParts (Split n.Key '/') 0 nameParts with
    | false => rfl
    | true => exact absurd ((matchParts_iff_keep _ _).1 hc) h
  simp [loopNodes.leaf, hm]

theorem hasPrefix_iff (s pre : String) : HasPrefix s pre = true ↔ ∃ rest : String, s = pre ++ rest := by
  unfold HasPrefix
  rw [List.isPrefixOf_iff_prefix]
  constructor
  · rintro ⟨t, ht⟩
    refine ⟨String.mk t, ?_⟩
    apply String.ext
    rw [String.data_append]
    exact ht.symm
  · rintro ⟨rest, hr⟩
    refine ⟨rest.data, ?_⟩
    rw [hr, String.data_append]

/-- The four ways an iteration on a leaf can go: the leaf is filtered out; its payload does
not decode; its record was seen before; its record is emitted. -/
theorem leaf_cases (lib : Lib) (nameParts : List String) (star : Bool) (n : Node)
    (sx bx : List Service) :
    (¬ passesFilter nameParts star n ∧
      loopNodes.leaf lib nameParts star n sx bx = ((sx, none), bx)) ∨
    (passesFilter nameParts star n ∧ ∃ m, lib.Unmarshal n.Value = .error m ∧
      loopNodes.leaf lib nameParts star n sx bx =
        (([], some (.errorString (n.Key ++ ": " ++ m))), bx)) ∨
    (passesFilter nameParts star n ∧ ∃ d, lib.Unmarshal n.Value = .ok d ∧
      dedupKey n d ∈ bx ∧ loopNodes.leaf lib nameParts star n sx bx = ((sx, none), bx)) ∨
    (passesFilter nameParts star n ∧ ∃ d, lib.Unmarshal n.Value = .ok d ∧
      dedupKey n d ∉ bx ∧
      loopNodes.leaf lib nameParts star n sx bx =
        ((sx ++ [emitted n d], none), dedupKey n d :: bx)) := by
  by_cases hp : passesFilter nameParts star n
  · have hfilter : (star && !matchParts (Split n.Key '/') 0 nameParts) = false := by
      cases star with
      | false => rfl
      | true =>
        have := (matchParts_iff_keep _ _).2 (hp rfl)
        simp [this]
    right
    cases hu : lib.Unmarshal n.Value with
    | error m =>
      left
      refine ⟨hp, m, rfl, ?_⟩
      simp [loopNodes.leaf, hfilter, hu]
    | ok d =>
      right
      by_cases hb : dedupKey n d ∈ bx
      · left
        refine ⟨hp, d, rfl, hb, ?_⟩
        have hb2 := hb
        unfold dedupKey at hb2
        simp [loopNodes.leaf, hfilter, hu, hb2]
      · right
        refine ⟨hp, d, rfl, hb, ?_⟩
        have hb2 := hb
        unfold dedupKey at hb2
        simp only [loopNodes.leaf, hfilter, hu, hb2, Bool.false_eq_true, if_false]
        unfold emitted dedupKey
        by_cases h0 : d.Priority = 0 <;> simp [h0, priority]
  · left
    refine ⟨hp, ?_⟩
    have hs : star = true := by
      by_contra hc
      apply hp
      intro h
      exact absurd h hc
    subst hs
    have hk : ¬ wildcardKeep nameParts (Split n.Key '/') := fun hk => hp (fun _ => hk)
    exact leaf_star_skip lib nameParts n sx bx hk

/-- The walk of a flat list of leaves either ends in the error of the first leaf that passes
the filter and does not decode, with no record, or it ends without an error and every leaf
that passes the filter decodes. -/
theorem walk_error (lib : Lib) (nameParts : List String) (star : Bool) (ls : List Node) :
    ∀ sx bx : List Service,
      (∀ err, (walkLeaves lib nameParts star ls sx bx).1.2 = some err →
        (walkLeaves lib nameParts star ls sx bx).1.1 = [] ∧
        ∃ pre n post m, ls = pre ++ n :: post ∧
          (∀ k ∈ pre, passesFilter nameParts star k → ∃ d, lib.Unmarshal k.Value = .ok d) ∧
          passesFilter nameParts star n ∧ lib.Unmarshal n.Value = .error m ∧
          err = .errorString (n.Key ++ ": " ++ m)) ∧
      ((walkLeaves lib nameParts star ls sx bx).1.2 = none →
        ∀ k ∈ ls, passesFilter nameParts star k → ∃ d, lib.Unmarshal k.Value = .ok d) := by
  induction ls with
  | nil =>
    intro sx bx
    simp [walkLeaves]
  | cons n ns ih =>
    intro sx bx
    have key : ∀ sx1 bx1, loopNodes.leaf lib nameParts star n sx bx = ((sx1, none), bx1) →
        (passesFilter nameParts star n → ∃ d, lib.Unmarshal n.Value = .ok d) →
        (∀ err, (walkLeaves lib nameParts star (n :: ns) sx bx).1.2 = some err →
          (walkLeaves lib nameParts star (n :: ns) sx bx).1.1 = [] ∧
          ∃ pre n1 post m, n :: ns = pre ++ n1 :: post ∧
            (∀ k ∈ pre, passesFilter nameParts star k → ∃ d, lib.Unmarshal k.Value = .ok d) ∧
            passesFilter nameParts star n1 ∧ lib.Unmarshal n1.Value = .error m ∧
            err = .errorString (n1.Key ++ ": " ++ m)) ∧
        ((walkLeaves lib nameParts star (n :: ns) sx bx).1.2 = none →
          ∀ k ∈ n :: ns, passesFilter nameParts star k →
            ∃ d, lib.Unmarshal k.Value = .ok d) := by
      intro sx1 bx1 hl hn
      have hw : walkLeaves lib nameParts star (n :: ns) sx bx =
          walkLeaves lib nameParts star ns sx1 bx1 := by
        simp [walkLeaves, hl]
      rw [hw]
      obtain ⟨ih1, ih2⟩ := ih sx1 bx1
      constructor
      · intro err herr
        obtain ⟨h1, pre, n1, post, m, hsplit, hpre, hp, hu, he⟩ := ih1 err herr
        refine ⟨h1, n :: pre, n1, post, m, by simp [hsplit], ?_, hp, hu, he⟩
        intro k hk
        rcases List.mem_cons.1 hk with hk | hk
        · subst hk; exact hn
        · exact hpre k hk
      · intro hnone k hk
        rcases List.mem_cons.1 hk with hk | hk
        · subst hk; exact hn
        · exact ih2 hnone k hk
    rcases leaf_cases lib nameParts star n sx bx with
      ⟨hp, hl⟩ | ⟨hp, m, hu, hl⟩ | ⟨hp, d, hu, _, hl⟩ | ⟨hp, d, hu, _, hl⟩
    · exact key sx bx hl (fun h => absurd h hp)
    · have hw : walkLeaves lib nameParts star (n :: ns) sx bx =
          (([], some (.errorString (n.Key ++ ": " ++ m))), bx) := by
        simp [walkLeaves, hl]
      rw [hw]
      constructor
      · intro err herr
        refine ⟨rfl, [], n, ns, m, rfl, by simp, hp, hu, ?_⟩
        simpa using herr.symm
      · intro h
        simp at h
    · exact key sx bx hl (fun _ => ⟨d, hu⟩)
    · exact key _ _ hl (fun _ => ⟨d, hu⟩)

/-- Every record of the walk of a flat list of leaves was there before the walk, or is the
record emitted for a leaf of the list that passes the filter and decodes. -/
theorem walk_mem (lib : Lib) (nameParts : List String) (star : Bool) (ls : List Node) :
    ∀ (sx bx : List Service) (s : Service),
      s ∈ (walkLeaves lib nameParts star ls sx bx).1.1 →
        s ∈ sx ∨ ∃ n ∈ ls, ∃ d, passesFilter nameParts star n ∧
          lib.Unmarshal n.Value = .ok d ∧ s = emitted n d := by
  induction ls with
  | nil =>
    intro sx bx s hs
    left
    simpa [walkLeaves] using hs
  | cons n ns ih =>
    intro sx bx s hs
    rcases leaf_cases lib nameParts star n sx bx with
      ⟨hp, hl⟩ | ⟨hp, m, hu, hl⟩ | ⟨hp, d, hu, _, hl⟩ | ⟨hp, d, hu, _, hl⟩
    · have hw : walkLeaves lib nameParts star (n :: ns) sx bx =
          walkLeaves lib nameParts star ns sx bx := by simp [walkLeaves, hl]
      rw [hw] at hs
      rcases ih sx bx s hs with h | ⟨k, hk, d, h⟩
      · exact Or.inl h
      · exact Or.inr ⟨k, List.mem_cons_of_mem _ hk, d, h⟩
    · have hw : walkLeaves lib nameParts star (n :: ns) sx bx =
          (([], some (.errorString (n.Key ++ ": " ++ m))), bx) := by
        simp [walkLeaves, hl]
      rw [hw] at hs
      simp at hs
    · have hw : walkLeaves lib nameParts star (n :: ns) sx bx =
          walkLeaves lib nameParts star ns sx bx := by simp [walkLeaves, hl]
      rw [hw] at hs
      rcases ih sx bx s hs with h | ⟨k, hk, d, h⟩
      · exact Or.inl h
      · exact Or.inr ⟨k, List.mem_cons_of_mem _ hk, d, h⟩
    · have hw : walkLeaves lib nameParts star (n :: ns) sx bx =
          walkLeaves lib nameParts star ns (sx ++ [emitted n d]) (dedupKey n d :: bx) := by
        simp [walkLeaves, hl]
      rw [hw] at hs
      rcases ih _ _ s hs with h | ⟨k, hk, d1, h⟩
      · rcases List.mem_append.1 h with h | h
        · exact Or.inl h
        · right
          refine ⟨n, List.mem_cons_self _ _, d, hp, hu, ?_⟩
          simpa using h
      · exact Or.inr ⟨k, List.mem_cons_of_mem _ hk, d1, h⟩

theorem loopNodes_eq_walk (lib : Lib) (ns : List Node) (nameParts : List String) (star : Bool)
    (bx : List Service) :
    loopNodes lib ns nameParts star bx = (walkLeaves lib nameParts star (leaves ns) [] bx).1 := by
  unfold loopNodes
  rw [loop_eq_walk]

/-- The priority of an emitted record is never zero. -/
theorem emitted_priority (n : Node) (d : Service) : (emitted n d).Priority ≠ 0 := by
  unfold emitted
  by_cases h : d.Priority = 0 <;> simp [h]

/-- Every record of `loopNodes` is the record emitted for a leaf of the forest. -/
theorem loopNodes_mem (lib : Lib) (ns : List Node) (nameParts : List String) (star : Bool)
    (bx : List Service) (s : Service) (hs : s ∈ (loopNodes lib ns nameParts star bx).1) :
    ∃ n ∈ leaves ns, ∃ d, passesFilter nameParts star n ∧
      lib.Unmarshal n.Value = .ok d ∧ s = emitted n d := by
  rw [loopNodes_eq_walk] at hs
  rcases walk_mem lib nameParts star (leaves ns) [] bx s hs with h | h
  · simp at h
  · exact h

/-- What `Records` returns is an empty list (with or without an error) or the result of a
walk. -/
theorem readAndWalk_result (lib : Lib) (e : Etcd) (exact : Bool) (name : String)
    (hasSubDomain : Bool) (path : String) (segments : List String) (star : Bool)
    (log : List String) (r : Ret) (log1 : List String)
    (h : e.readAndWalk lib exact name hasSubDomain path segments star log = some (r, log1)) :
    r.1 = [] ∨ ∃ ns parts st, r = loopNodes lib ns parts st [] := by
  unfold Etcd.readAndWalk at h
  split at h
  · split at h
    · simp only at h
      split at h
      · simp at h
      · split at h
        · simp at h
          left; rw [← h.1]
        · simp at h
          right; exact ⟨_, _, _, h.1.symm⟩
    · simp at h
      left; rw [← h.1]
  · split at h
    · simp at h
      left; rw [← h.1]
    · split at h
      · simp at h
        right; exact ⟨_, _, _, h.1.symm⟩
      · simp at h
        right; exact ⟨_, _, _, h.1.symm⟩

theorem Records_result (lib : Lib) (e : Etcd) (state : Request) (exact : Bool) (r : Ret)
    (log : List String) (h : e.Records lib state exact = some (r, log)) :
    r.1 = [] ∨ ∃ ns parts st, r = loopNodes lib ns parts st [] := by
  unfold Etcd.Records at h
  simp only at h
  split at h
  · simp at h
    left; rw [← h.1]
  · split at h
    · simp at h
    · exact readAndWalk_result lib e exact _ _ _ _ _ _ r log h

theorem noZonePrefix_iff (e : Etcd) (name : String) :
    noZonePrefix e name ↔ e.Zones.any (fun zone => HasPrefix name zone) = false := by
  unfold noZonePrefix
  rw [List.any_eq_false]
  constructor
  · intro h zone hz hp
    exact h zone hz ((hasPrefix_iff _ _).1 hp)
  · intro h zone hz hp
    exact h zone hz ((hasPrefix_iff _ _).2 hp)

theorem containsChars_iff (sub : List Char) :
    ∀ cs : List Char, containsChars sub cs = true ↔ sub <:+: cs := by
  intro cs
  induction cs with
  | nil =>
    simp only [containsChars, List.isPrefixOf_iff_prefix]
    constructor
    · intro h; exact h.isInfix
    · intro h
      have := List.eq_nil_of_infix_nil h
      subst this
      exact List.prefix_refl _
  | cons c cs ih =>
    simp only [containsChars, Bool.or_eq_true, List.isPrefixOf_iff_prefix, ih,
      List.infix_cons_iff]

theorem contains_iff (s sub : String) : Contains s sub = true ↔ occursIn sub s := by
  unfold Contains occursIn
  rw [containsChars_iff]
  constructor
  · rintro ⟨a, b, h⟩
    refine ⟨String.mk a, String.mk b, ?_⟩
    apply String.ext
    simp only [String.data_append]
    exact h.symm
  · rintro ⟨a, b, h⟩
    refine ⟨a.data, b.data, ?_⟩
    rw [h]
    simp only [String.data_append]

theorem contains_false_iff (s sub : String) : Contains s sub = false ↔ ¬ occursIn sub s := by
  rw [← contains_iff]
  simp

/-- Within the range of a DNS name the subtraction of the bound does not wrap around. -/
theorem int8_start (l : Nat) (b : Int) (hb : 0 < b) (hl : b < l) (h127 : l ≤ 127) :
    int8 (int8 l - b) = l - b := by
  unfold int8
  omega

theorem sliceFrom_rightmost (labels : List String) (b : Int) (hb : 0 < b)
    (hl : b < labels.length) :
    sliceFrom labels ((labels.length : Int) - b) = some (rightmost b labels) := by
  unfold sliceFrom rightmost
  have h1 : 0 ≤ (labels.length : Int) - b ∧ (labels.length : Int) - b ≤ labels.length := by
    omega
  have h2 : ((labels.length : Int) - b).toNat = labels.length - b.toNat := by omega
  simp [h1, h2]

theorem hasSubDomains_log (lib : Lib) (e : Etcd) (log : List String) (name : String) :
    (e.hasSubDomains lib log name).2 = log ++ [probeRoot lib e name] := by
  unfold Etcd.hasSubDomains Etcd.get probeRoot
  simp only
  split
  · rename_i h
    simp at h
    rw [← h.2]
  · rename_i h
    simp at h
    split <;> rw [← h.2]

theorem hasSubDomains_fst (lib : Lib) (e : Etcd) (log : List String) (name : String)
    (h : (e.hasSubDomains lib log name).1 ≠ "") :
    (e.hasSubDomains lib log name).1 = probeRoot lib e name := by
  unfold Etcd.hasSubDomains probeRoot at *
  simp only at *
  split at h
  · simp at h
  · split at h
    · rename_i h1 h2
      simp [h1, h2]
    · simp at h

/-- The plan of a name with a subtree and no `*`: the flattened-subdomain branch. -/
theorem plan_flat (lib : Lib) (e : Etcd) (name : String) (qType : Nat)
    (hb : 0 < e.WildcardBound) (hq : qType ≠ TypeTXT)
    (hlen : e.WildcardBound < (lib.SplitDomainName name).length)
    (h127 : (lib.SplitDomainName name).length ≤ 127)
    (hprobe : (e.hasSubDomains lib [] name).1 ≠ "") (hstar : ¬ occursIn "*" name) :
    e.planWildcard lib name qType =
      some (name, probeRoot lib e name, true, [probeRoot lib e name]) := by
  have hs := int8_start _ _ hb hlen h127
  have hc := (contains_false_iff name "*").2 hstar
  have hlog := hasSubDomains_log lib e [] name
  have hfst := hasSubDomains_fst lib e [] name hprobe
  unfold Etcd.planWildcard
  simp only [hs]
  rw [if_pos ⟨hb, hq, by omega⟩]
  rcases hh : e.hasSubDomains lib [] name with ⟨subPath, log⟩
  rw [hh] at hlog hfst hprobe
  simp only at hlog hfst hprobe
  simp only [hc]
  rw [if_pos ⟨hprobe, by simp⟩, hfst, hlog]
  rfl

/-- The plan of a name without a subtree, or with a `*`: the generic-wildcard name. -/
theorem plan_wild (lib : Lib) (e : Etcd) (name : String) (qType : Nat)
    (hb : 0 < e.WildcardBound) (hq : qType ≠ TypeTXT)
    (hlen : e.WildcardBound < (lib.SplitDomainName name).length)
    (h127 : (lib.SplitDomainName name).length ≤ 127)
    (h : (e.hasSubDomains lib [] name).1 = "" ∨ occursIn "*" name) :
    e.planWildcard lib name qType =
      some (wildcardName e.WildcardBound (lib.SplitDomainName name),
        (e.hasSubDomains lib [] name).1, false, [probeRoot lib e name]) := by
  have hs := int8_start _ _ hb hlen h127
  have hlog := hasSubDomains_log lib e [] name
  unfold Etcd.planWildcard
  simp only [hs]
  rw [if_pos ⟨hb, hq, by omega⟩]
  rcases hh : e.hasSubDomains lib [] name with ⟨subPath, log⟩
  rw [hh] at hlog h
  simp only at hlog h
  have hcond : ¬ (subPath ≠ "" ∧ (!Contains name "*") = true) := by
    rintro ⟨h1, h2⟩
    rcases h with h | h
    · exact h1 h
    · have := (contains_iff name "*").2 h
      simp [this] at h2
  simp only
  rw [if_neg hcond, sliceFrom_rightmost _ _ hb hlen, hlog]
  rfl

/-- The plan when the bound is not positive, the query is a TXT query, or the name is not
longer than the bound: the name as it is, and no read. -/
theorem plan_plain (lib : Lib) (e : Etcd) (name : String) (qType : Nat)
    (h : ¬ (e.WildcardBound > 0 ∧ qType ≠ TypeTXT ∧
      int8 (int8 (lib.SplitDomainName name).length - e.WildcardBound) > 0)) :
    e.planWildcard lib name qType = some (name, "", false, []) := by
  unfold Etcd.planWildcard
  simp only
  rw [if_neg h]

theorem acmeRewrite_other (lib : Lib) (name : String) (qType : Nat) (hq : qType ≠ TypeTXT) :
    acmeRewrite lib name qType = name := by
  unfold acmeRewrite
  rw [if_neg (fun h => hq h.1)]

/-- `Records` past the zones: the plan, the rewrite of an ACME name, the path, and the reads. -/
theorem Records_eq (lib : Lib) (e : Etcd) (state : Request) (exact : Bool)
    (hz : noZonePrefix e state.Name) (name subPath : String) (hasSubDomain : Bool)
    (log : List String)
    (hplan : e.planWildcard lib state.Name state.QType = some (name, subPath, hasSubDomain, log)) :
    e.Records lib state exact =
      e.readAndWalk lib exact (acmeRewrite lib name state.QType) hasSubDomain
        (e.planPath lib (acmeRewrite lib name state.QType) subPath hasSubDomain).1
        (e.planPath lib (acmeRewrite lib name state.QType) subPath hasSubDomain).2.1
        (e.planPath lib (acmeRewrite lib name state.QType) subPath hasSubDomain).2.2 log := by
  have hany := (noZonePrefix_iff e state.Name).1 hz
  unfold Etcd.Records
  simp only [hany, hplan]
  rfl

theorem planPath_plain (lib : Lib) (e : Etcd) (name subPath : String) :
    e.planPath lib name subPath false =
      ((lib.PathWithWildcard name e.PathPrefix).1, Split (lib.Path name e.PathPrefix) '/',
        (lib.PathWithWildcard name e.PathPrefix).2) := by
  simp [Etcd.planPath]

theorem planPath_flat (lib : Lib) (e : Etcd) (name : String) :
    e.planPath lib name (probeRoot lib e name) true =
      (flatPath lib e name, Split (flatPath lib e name) '/', false) := by
  simp [Etcd.planPath, flatPath]

/-- The read of the planned path succeeds: the fetched node is classified and walked. -/
theorem readAndWalk_ok (lib : Lib) (e : Etcd) (exact : Bool) (name : String)
    (hasSubDomain : Bool) (path : String) (segments : List String) (star : Bool)
    (log : List String) (r : Response) (h : e.Client.Get log path true = .ok r) :
    e.readAndWalk lib exact name hasSubDomain path segments star log =
      some (if exact ∧ r.Node.Dir then ([], none)
        else if r.Node.Dir then loopNodes lib r.Node.Nodes segments star []
        else loopNodes lib [r.Node] segments false [], log ++ [path]) := by
  unfold Etcd.readAndWalk Etcd.get
  simp only [h]
  split <;> [rfl; (split <;> rfl)]

/-- The read of the planned path fails and there is no fallback: the error is returned. -/
theorem readAndWalk_error (lib : Lib) (e : Etcd) (exact : Bool) (name : String)
    (hasSubDomain : Bool) (path : String) (segments : List String) (star : Bool)
    (log : List String) (err : GoError) (h : e.Client.Get log path true = .error err)
    (hno : ¬ (hasSubDomain = true ∧ IsKeyNotFound err = true)) :
    e.readAndWalk lib exact name hasSubDomain path segments star log =
      some (([], some err), log ++ [path]) := by
  unfold Etcd.readAndWalk Etcd.get
  simp only [h]
  rw [if_neg hno]

/-- The read of the flattened path misses: the fallback read of the generic-wildcard path. -/
theorem readAndWalk_fallback (lib : Lib) (e : Etcd) (exact : Bool) (name : String)
    (path : String) (segments : List String) (star : Bool) (log : List String) (err : GoError)
    (hb : 0 < e.WildcardBound) (hlen : e.WildcardBound < (lib.SplitDomainName name).length)
    (h127 : (lib.SplitDomainName name).length ≤ 127)
    (h : e.Client.Get log path true = .error err) (hnf : IsKeyNotFound err = true) :
    e.readAndWalk lib exact name true path segments star log =
      match e.Client.Get (log ++ [path])
        (lib.PathWithWildcard (wildcardName e.WildcardBound (lib.SplitDomainName name))
          e.PathPrefix).1 true with
      | .error err2 => some (([], some err2), log ++ [path] ++
          [(lib.PathWithWildcard (wildcardName e.WildcardBound (lib.SplitDomainName name))
            e.PathPrefix).1])
      | .ok resp => some (loopNodes lib resp.Node.Nodes
          (Split (lib.Path (wildcardName e.WildcardBound (lib.SplitDomainName name))
            e.PathPrefix) '/')
          (lib.PathWithWildcard (wildcardName e.WildcardBound (lib.SplitDomainName name))
            e.PathPrefix).2 [],
          log ++ [path] ++
          [(lib.PathWithWildcard (wildcardName e.WildcardBound (lib.SplitDomainName name))
            e.PathPrefix).1]) := by
  unfold Etcd.readAndWalk Etcd.get
  simp only [h]
  rw [if_pos ⟨trivial, hnf⟩, int8_start _ _ hb hlen h127, sliceFrom_rightmost _ _ hb hlen]
  simp only [wildcardName]
  split <;> rename_i h2 <;> simp at h2 <;> simp [h2.1, ← h2.2]

theorem join_cons_cons (x y : String) (zs : List String) (sep : String) :
    Join (x :: y :: zs) sep = x ++ sep ++ Join (y :: zs) sep := rfl

theorem join_snoc (sep : String) (a b : String) :
    ∀ xs : List String, Join (xs ++ [a ++ sep ++ b]) sep = Join (xs ++ [a, b]) sep := by
  intro xs
  induction xs with
  | nil => simp [Join]
  | cons x xs ih =>
    cases xs with
    | nil => simp [Join]
    | cons y ys =>
      simp only [List.cons_append] at ih ⊢
      rw [join_cons_cons, join_cons_cons, ih]

/-- Past index 0 the loop of lines 106-112 puts each label and a dot in front of the name. -/
theorem acme_fold_tail (ls : List String) :
    ∀ (k : Nat) (acc : String), 0 < k →
      (ls.enumFrom k).foldl
        (fun name iv => if iv.1 = 0 then iv.2 ++ "._txt" else iv.2 ++ "." ++ name) acc =
      Join (ls.reverse ++ [acc]) "." := by
  induction ls with
  | nil => intro k acc _; simp [Join]
  | cons l ls ih =>
    intro k acc hk
    have hk0 : k ≠ 0 := by omega
    simp only [List.enumFrom_cons, List.foldl_cons, hk0, if_false]
    rw [ih (k + 1) _ (by omega), join_snoc]
    simp

/-- The loop of lines 106-112: the labels in reverse order, then the label `_txt`. -/
theorem acmeName_eq (l0 : String) (ls : List String) (name : String) :
    acmeName (l0 :: ls) name = Join ((l0 :: ls).reverse ++ ["_txt"]) "." := by
  unfold acmeName
  simp only [List.enum, List.enumFrom_cons, List.foldl_cons, if_true]
  rw [acme_fold_tail ls 1 _ (by omega)]
  have h : l0 ++ "._txt" = l0 ++ "." ++ "_txt" := by
    rw [String.append_assoc]
    rfl
  rw [h, join_snoc]
  simp

/-! ### The walk as a list of emitted leaves -/

mutual
theorem node_leaves_not_dir : ∀ (n : Node), ∀ m ∈ Node.leaves n, m.Dir = false
  | .mk key d value nodes nttl => by
    cases d with
    | true =>
      simp only [Node.leaves, if_true]
      exact leaves_not_dir nodes
    | false =>
      simp only [Node.leaves, Bool.false_eq_true, if_false]
      intro m hm
      simp at hm
      subst hm
      rfl
/-- A leaf of a forest is not a directory. -/
theorem leaves_not_dir : ∀ (ns : List Node), ∀ m ∈ leaves ns, m.Dir = false
  | [] => by simp [leaves]
  | n :: ns => by
    intro m hm
    simp only [leaves, List.mem_append] at hm
    rcases hm with hm | hm
    · exact node_leaves_not_dir n m hm
    · exact leaves_not_dir ns m hm
end

theorem leaves_of_leaf (n : Node) (h : n.Dir = false) : Node.leaves n = [n] := by
  cases n with
  | mk key d value nodes nttl =>
    simp only [Node.Dir] at h
    subst h
    simp [Node.leaves]

theorem leaves_flat (ls : List Node) (h : ∀ m ∈ ls, m.Dir = false) : leaves ls = ls := by
  induction ls with
  | nil => simp [leaves]
  | cons n ns ih =>
    simp only [leaves]
    rw [leaves_of_leaf n (h n (List.mem_cons_self _ _)),
      ih (fun m hm => h m (List.mem_cons_of_mem _ hm))]
    rfl

/-- The leaves of the list of leaves of a forest are these leaves. -/
theorem leaves_idem (ns : List Node) : leaves (leaves ns) = leaves ns :=
  leaves_flat (leaves ns) (leaves_not_dir ns)

theorem leaves_append (l1 l2 : List Node) : leaves (l1 ++ l2) = leaves l1 ++ leaves l2 := by
  induction l1 with
  | nil => simp [leaves]
  | cons n ns ih => simp [leaves, ih]

theorem leaves_dir_cons (key value : String) (nodes : List Node) (nttl : Int)
    (rest : List Node) :
    leaves (.mk key true value nodes nttl :: rest) = leaves (nodes ++ rest) := by
  rw [leaves_append]
  simp [leaves, Node.leaves]

/-- A walk that ends without an error, told as the list of the leaves it emitted a record
for, each with its decoded payload: the records are appended in order, the comparison
tuples are added to the seen set, they are pairwise different and new, and every leaf that
passes the filter has its tuple among them or in the seen set it started from. -/
theorem walk_trace (lib : Lib) (nameParts : List String) (star : Bool) (ls : List Node) :
    ∀ sx bx : List Service, (walkLeaves lib nameParts star ls sx bx).1.2 = none →
      ∃ ps : List (Node × Service),
        (walkLeaves lib nameParts star ls sx bx).1.1 =
          sx ++ ps.map (fun p => emitted p.1 p.2) ∧
        (walkLeaves lib nameParts star ls sx bx).2 =
          (ps.map (fun p => dedupKey p.1 p.2)).reverse ++ bx ∧
        (∀ p ∈ ps, p.1 ∈ ls ∧ passesFilter nameParts star p.1 ∧
          lib.Unmarshal p.1.Value = .ok p.2) ∧
        (ps.map (fun p => dedupKey p.1 p.2)).Nodup ∧
        (∀ p ∈ ps, dedupKey p.1 p.2 ∉ bx) ∧
        (∀ n ∈ ls, passesFilter nameParts star n → ∀ d, lib.Unmarshal n.Value = .ok d →
          dedupKey n d ∈ ps.map (fun p => dedupKey p.1 p.2) ∨ dedupKey n d ∈ bx) := by
  induction ls with
  | nil =>
    intro sx bx _
    exact ⟨[], by simp [walkLeaves], by simp [walkLeaves], by simp, by simp, by simp, by simp⟩
  | cons n ns ih =>
    intro sx bx hnone
    rcases leaf_cases lib nameParts star n sx bx with
      ⟨hp, hl⟩ | ⟨hp, m, hu, hl⟩ | ⟨hp, d, hu, hb, hl⟩ | ⟨hp, d, hu, hb, hl⟩
    · have hw : walkLeaves lib nameParts star (n :: ns) sx bx =
          walkLeaves lib nameParts star ns sx bx := by simp [walkLeaves, hl]
      rw [hw] at hnone ⊢
      obtain ⟨ps, h1, h2, h3, h4, h5, h6⟩ := ih sx bx hnone
      refine ⟨ps, h1, h2, ?_, h4, h5, ?_⟩
      · intro p hpm
        obtain ⟨a, b, c⟩ := h3 p hpm
        exact ⟨List.mem_cons_of_mem _ a, b, c⟩
      · intro k hk hpk d hd
        rcases List.mem_cons.1 hk with hk | hk
        · subst hk; exact absurd hpk hp
        · exact h6 k hk hpk d hd
    · have hw : walkLeaves lib nameParts star (n :: ns) sx bx =
          (([], some (.errorString (n.Key ++ ": " ++ m))), bx) := by
        simp [walkLeaves, hl]
      rw [hw] at hnone
      simp at hnone
    · have hw : walkLeaves lib nameParts star (n :: ns) sx bx =
          walkLeaves lib nameParts star ns sx bx := by simp [walkLeaves, hl]
      rw [hw] at hnone ⊢
      obtain ⟨ps, h1, h2, h3, h4, h5, h6⟩ := ih sx bx hnone
      refine ⟨ps, h1, h2, ?_, h4, h5, ?_⟩
      · intro p hpm
        obtain ⟨a, b, c⟩ := h3 p hpm
        exact ⟨List.mem_cons_of_mem _ a, b, c⟩
      · intro k hk hpk d1 hd1
        rcases List.mem_cons.1 hk with hk | hk
        · subst hk
          rw [hu] at hd1
          injection hd1 with hd1
          subst hd1
          exact Or.inr hb
        · exact h6 k hk hpk d1 hd1
    · have hw : walkLeaves lib nameParts star (n :: ns) sx bx =
          walkLeaves lib nameParts star ns (sx ++ [emitted n d]) (dedupKey n d :: bx) := by
        simp [walkLeaves, hl]
      rw [hw] at hnone ⊢
      obtain ⟨ps, h1, h2, h3, h4, h5, h6⟩ := ih _ _ hnone
      refine ⟨(n, d) :: ps, ?_, ?_, ?_, ?_, ?_, ?_⟩
      · rw [h1]; simp
      · rw [h2]; simp
      · intro p hpm
        rcases List.mem_cons.1 hpm with hpm | hpm
        · subst hpm
          exact ⟨List.mem_cons_self _ _, hp, hu⟩
        · obtain ⟨a, b, c⟩ := h3 p hpm
          exact ⟨List.mem_cons_of_mem _ a, b, c⟩
      · simp only [List.map_cons, List.nodup_cons]
        refine ⟨?_, h4⟩
        intro hmem
        obtain ⟨p, hpm, hpe⟩ := List.mem_map.1 hmem
        apply h5 p hpm
        rw [hpe]
        exact List.mem_cons_self _ _
      · intro p hpm
        rcases List.mem_cons.1 hpm with hpm | hpm
        · subst hpm; exact hb
        · intro hin
          exact h5 p hpm (List.mem_cons_of_mem _ hin)
      · intro k hk hpk d1 hd1
        rcases List.mem_cons.1 hk with hk | hk
        · subst hk
          rw [hu] at hd1
          injection hd1 with hd1
          subst hd1
          left
          simp
        · rcases h6 k hk hpk d1 hd1 with h | h
          · left
            simp only [List.map_cons, List.mem_cons]
            exact Or.inr h
          · rcases List.mem_cons.1 h with h | h
            · left
              simp only [List.map_cons, List.mem_cons]
              exact Or.inl h
            · exact Or.inr h

theorem keepKey_iff (nameParts : List String) (s : Service) :
    keepKey nameParts s = true ↔ wildcardKeep nameParts (Split s.Key '/') :=
  matchParts_iff_keep nameParts (Split s.Key '/')

/-- The filtered walk and the unfiltered walk, side by side: when the seen sets agree on the
tuples whose key passes the match and the unfiltered walk ends without an error, so does
the filtered walk, and its records are those of the unfiltered walk whose key passes the
match. -/
theorem walk_filter (lib : Lib) (nameParts : List String) (ls : List Node) :
    ∀ sxF bxF sxT bxT : List Service,
      (∀ k : Service, keepKey nameParts k = true → (k ∈ bxT ↔ k ∈ bxF)) →
      sxT = sxF.filter (keepKey nameParts) →
      (walkLeaves lib nameParts false ls sxF bxF).1.2 = none →
      (walkLeaves lib nameParts true ls sxT bxT).1.2 = none ∧
      (walkLeaves lib nameParts true ls sxT bxT).1.1 =
        (walkLeaves lib nameParts false ls sxF bxF).1.1.filter (keepKey nameParts) := by
  induction ls with
  | nil =>
    intro sxF bxF sxT bxT _ hsx _
    simp [walkLeaves, hsx]
  | cons n ns ih =>
    intro sxF bxF sxT bxT hR hsx hnone
    have hkd : ∀ d, keepKey nameParts (dedupKey n d) = true ↔
        wildcardKeep nameParts (Split n.Key '/') := fun d => keepKey_iff nameParts _
    have hke : ∀ d, keepKey nameParts (emitted n d) = true ↔
        wildcardKeep nameParts (Split n.Key '/') := fun d => keepKey_iff nameParts _
    rcases leaf_cases lib nameParts false n sxF bxF with
      ⟨hp, _⟩ | ⟨_, m, hu, hl⟩ | ⟨_, d, hu, hb, hl⟩ | ⟨_, d, hu, hb, hl⟩
    · exact absurd (fun h => absurd h (by simp)) hp
    · have hw : walkLeaves lib nameParts false (n :: ns) sxF bxF =
          (([], some (.errorString (n.Key ++ ": " ++ m))), bxF) := by
        simp [walkLeaves, hl]
      rw [hw] at hnone
      simp at hnone
    · have hwF : walkLeaves lib nameParts false (n :: ns) sxF bxF =
          walkLeaves lib nameParts false ns sxF bxF := by simp [walkLeaves, hl]
      rw [hwF] at hnone ⊢
      rcases leaf_cases lib nameParts true n sxT bxT with
        ⟨hpT, hlT⟩ | ⟨_, m, huT, _⟩ | ⟨hpT, d1, huT, hbT, hlT⟩ | ⟨hpT, d1, huT, hbT, hlT⟩
      · have hwT : walkLeaves lib nameParts true (n :: ns) sxT bxT =
            walkLeaves lib nameParts true ns sxT bxT := by simp [walkLeaves, hlT]
        rw [hwT]
        exact ih sxF bxF sxT bxT hR hsx hnone
      · rw [hu] at huT
        exact absurd huT (by simp)
      · have hwT : walkLeaves lib nameParts true (n :: ns) sxT bxT =
            walkLeaves lib nameParts true ns sxT bxT := by simp [walkLeaves, hlT]
        rw [hwT]
        exact ih sxF bxF sxT bxT hR hsx hnone
      · rw [hu] at huT
        injection huT with huT
        subst huT
        exact absurd ((hR _ ((hkd d).2 (hpT rfl))).2 hb) hbT
    · have hwF : walkLeaves lib nameParts false (n :: ns) sxF bxF =
          walkLeaves lib nameParts false ns (sxF ++ [emitted n d]) (dedupKey n d :: bxF) := by
        simp [walkLeaves, hl]
      rw [hwF] at hnone ⊢
      rcases leaf_cases lib nameParts true n sxT bxT with
        ⟨hpT, hlT⟩ | ⟨_, m, huT, _⟩ | ⟨hpT, d1, huT, hbT, hlT⟩ | ⟨hpT, d1, huT, hbT, hlT⟩
      · have hwT : walkLeaves lib nameParts true (n :: ns) sxT bxT =
            walkLeaves lib nameParts true ns sxT bxT := by simp [walkLeaves, hlT]
        rw [hwT]
        have hnk : ¬ wildcardKeep nameParts (Split n.Key '/') := fun h => hpT (fun _ => h)
        have hne : keepKey nameParts (emitted n d) = false := by
          cases hc : keepKey nameParts (emitted n d) with
          | false => rfl
          | true => exact absurd ((hke d).1 hc) hnk
        apply ih (sxF ++ [emitted n d]) (dedupKey n d :: bxF) sxT bxT _ _ hnone
        · intro k hk
          rw [hR k hk]
          constructor
          · intro h; exact List.mem_cons_of_mem _ h
          · intro h
            rcases List.mem_cons.1 h with h | h
            · subst h
              exact absurd ((hkd d).1 hk) hnk
            · exact h
        · rw [List.filter_append, hsx]
          simp [List.filter, hne]
      · rw [hu] at huT
        exact absurd huT (by simp)
      · rw [hu] at huT
        injection huT with huT
        subst huT
        exact absurd ((hR _ ((hkd d).2 (hpT rfl))).1 hbT) hb
      · rw [hu] at huT
        injection huT with huT
        subst huT
        have hwT : walkLeaves lib nameParts true (n :: ns) sxT bxT =
            walkLeaves lib nameParts true ns (sxT ++ [emitted n d])
              (dedupKey n d :: bxT) := by simp [walkLeaves, hlT]
        rw [hwT]
        have hye : keepKey nameParts (emitted n d) = true := (hke d).2 (hpT rfl)
        apply ih (sxF ++ [emitted n d]) (dedupKey n d :: bxF) _ _ _ _ hnone
        · intro k hk
          simp only [List.mem_cons]
          rw [hR k hk]
        · rw [List.filter_append, hsx]
          simp [List.filter, hye]

/-- The record of a leaf in a walk that ends without an error and starts from an empty seen
set: every leaf that passes the filter and decodes has a record with its key and its decoded
fields in the result. -/
theorem loopNodes_complete (lib : Lib) (ns : List Node) (nameParts : List String)
    (star : Bool) (hok : (loopNodes lib ns nameParts star []).2 = none)
    (n : Node) (d : Service) (hn : n ∈ leaves ns) (hp : passesFilter nameParts star n)
    (hd : lib.Unmarshal n.Value = .ok d) :
    ∃ s ∈ (loopNodes lib ns nameParts star []).1,
      s.Key = n.Key ∧ s.Host = d.Host ∧ s.Port = d.Port ∧
      s.Priority = (if d.Priority = 0 then 10 else d.Priority) ∧
      s.Weight = d.Weight ∧ s.Text = d.Text := by
  rw [loopNodes_eq_walk] at hok ⊢
  obtain ⟨ps, h1, _, _, _, _, h6⟩ := walk_trace lib nameParts star (leaves ns) [] [] hok
  rcases h6 n hn hp d hd with h | h
  · obtain ⟨p, hpm, hpe⟩ := List.mem_map.1 h
    refine ⟨emitted p.1 p.2, ?_, ?_⟩
    · rw [h1]
      simp only [List.nil_append]
      exact List.mem_map.2 ⟨p, hpm, rfl⟩
    · have e1 : p.1.Key = n.Key := congrArg Service.Key hpe
      have e2 : p.2.Host = d.Host := by
        have h0 := congrArg Service.Host hpe
        exact h0
      have e3 : p.2.Port = d.Port := by
        have h0 := congrArg Service.Port hpe
        exact h0
      have e4 : p.2.Priority = d.Priority := by
        have h0 := congrArg Service.Priority hpe
        exact h0
      have e5 : p.2.Weight = d.Weight := by
        have h0 := congrArg Service.Weight hpe
        exact h0
      have e6 : p.2.Text = d.Text := by
        have h0 := congrArg Service.Text hpe
        exact h0
      simp only [emitted]
      rw [e4]
      exact ⟨e1, e2, e3, rfl, e5, e6⟩
  · simp at h

/-! ### The plan and the reads of `Records` -/

/-- For a name of at most 127 labels and a bound that is an `int8`, the test of line 89 is
the guard of the probe: the subtraction does not wrap around. -/
theorem guard_iff (l : Nat) (b : Int) (qType : Nat) (h127 : l ≤ 127) (hrange : b ≤ 127) :
    (b > 0 ∧ qType ≠ TypeTXT ∧ int8 (int8 l - b) > 0) ↔
      (0 < b ∧ qType ≠ TypeTXT ∧ b < l) := by
  unfold int8
  constructor
  · rintro ⟨h1, h2, h3⟩
    exact ⟨h1, h2, by omega⟩
  · rintro ⟨h1, h2, h3⟩
    exact ⟨h1, h2, by omega⟩

/-- A positive start index of line 88 is within the labels, whatever their number. -/
theorem start_bounds (l : Nat) (b : Int) (hb : 0 < b) (hrange : b ≤ 127)
    (hs : 0 < int8 (int8 l - b)) : int8 (int8 l - b) ≤ l := by
  unfold int8 at *
  omega

/-- A plan with `hasSubDomain` set comes from the branch of line 92: the test of line 89
holds, the name is the name of the query, and the only read so far is the probe. -/
theorem plan_true_inv (lib : Lib) (e : Etcd) (name : String) (qType : Nat)
    (name1 subPath : String) (log : List String)
    (h : e.planWildcard lib name qType = some (name1, subPath, true, log)) :
    (e.WildcardBound > 0 ∧ qType ≠ TypeTXT ∧
      int8 (int8 (lib.SplitDomainName name).length - e.WildcardBound) > 0) ∧
    name1 = name ∧ subPath = probeRoot lib e name ∧ log = [probeRoot lib e name] ∧
    Contains name "*" = false := by
  have hlog := hasSubDomains_log lib e [] name
  unfold Etcd.planWildcard at h
  simp only at h
  split at h
  · rename_i hg
    rcases hh : e.hasSubDomains lib [] name with ⟨sp, lg⟩
    rw [hh] at h hlog
    simp only at h hlog
    have hfst := hasSubDomains_fst lib e [] name
    rw [hh] at hfst
    simp only at hfst
    split at h
    · rename_i hc
      simp at h
      obtain ⟨h1, h2, h3⟩ := h
      refine ⟨hg, h1.symm, ?_, ?_, ?_⟩
      · rw [← h2]; exact hfst hc.1
      · rw [← h3, hlog]; rfl
      · simpa using hc.2
    · split at h
      · simp at h
      · simp at h
  · simp at h

/-- The fallback read is issued: a missed read of the flattened path is followed by exactly
one more read. -/
theorem readAndWalk_fallback_some (lib : Lib) (e : Etcd) (exact : Bool) (name : String)
    (path : String) (segments : List String) (star : Bool) (log : List String) (err : GoError)
    (hs : 0 ≤ int8 (int8 (lib.SplitDomainName name).length - e.WildcardBound) ∧
      int8 (int8 (lib.SplitDomainName name).length - e.WildcardBound) ≤
        (lib.SplitDomainName name).length)
    (h : e.Client.Get log path true = .error err) (hnf : IsKeyNotFound err = true) :
    ∃ ret extra, e.readAndWalk lib exact name true path segments star log =
      some (ret, log ++ [path] ++ [extra]) := by
  unfold Etcd.readAndWalk Etcd.get
  simp only [h]
  rw [if_pos ⟨trivial, hnf⟩]
  unfold sliceFrom
  rw [if_pos hs]
  simp only
  split
  · rename_i h2
    simp at h2
    exact ⟨_, _, by rw [← h2.2, List.append_assoc]; rfl⟩
  · rename_i h2
    simp at h2
    exact ⟨_, _, by rw [← h2.2, List.append_assoc]; rfl⟩

/-- The reads of `readAndWalk` do not panic when the slice of the fallback is in bounds. -/
theorem readAndWalk_some (lib : Lib) (e : Etcd) (exact : Bool) (name : String)
    (hasSubDomain : Bool) (path : String) (segments : List String) (star : Bool)
    (log : List String)
    (hs : hasSubDomain = true →
      0 ≤ int8 (int8 (lib.SplitDomainName name).length - e.WildcardBound) ∧
      int8 (int8 (lib.SplitDomainName name).length - e.WildcardBound) ≤
        (lib.SplitDomainName name).length) :
    ∃ ret rest, e.readAndWalk lib exact name hasSubDomain path segments star log =
      some (ret, log ++ [path] ++ rest) := by
  cases hget : e.Client.Get log path true with
  | ok r =>
    rw [readAndWalk_ok lib e exact name hasSubDomain path segments star log r hget]
    exact ⟨_, [], by rw [List.append_nil]⟩
  | error err =>
    by_cases hc : hasSubDomain = true ∧ IsKeyNotFound err = true
    · obtain ⟨h1, h2⟩ := hc
      subst h1
      obtain ⟨ret, extra, hr⟩ := readAndWalk_fallback_some lib e exact name path segments star
        log err (hs rfl) hget h2
      exact ⟨ret, [extra], hr⟩
    · rw [readAndWalk_error lib e exact name hasSubDomain path segments star log err hget hc]
      exact ⟨_, [], by rw [List.append_nil]⟩

/-- The walk of a single leaf with the filter off and an empty seen set: its record. -/
theorem loopNodes_single_leaf (lib : Lib) (n : Node) (nameParts : List String) (d : Service)
    (hleaf : n.Dir = false) (hd : lib.Unmarshal n.Value = .ok d) :
    loopNodes lib [n] nameParts false [] = ([emitted n d], none) := by
  unfold loopNodes
  rw [loop_cons, body_leaf _ _ _ _ _ _ hleaf]
  rcases leaf_cases lib nameParts false n [] [] with
    ⟨hp, _⟩ | ⟨_, m, hu, _⟩ | ⟨_, d1, _, hb, _⟩ | ⟨_, d1, hu, _, hl⟩
  · exact absurd (fun h => absurd h (by simp)) hp
  · rw [hd] at hu
    exact absurd hu (by simp)
  · simp at hb
  · rw [hd] at hu
    injection hu with hu
    subst hu
    rw [hl]
    simp [loop_nil]

/-- The walk of a single leaf whose payload does not decode: the error, with the key. -/
theorem loopNodes_single_bad (lib : Lib) (n : Node) (nameParts : List String) (m : String)
    (hleaf : n.Dir = false) (hd : lib.Unmarshal n.Value = .error m) :
    loopNodes lib [n] nameParts false [] =
      ([], some (.errorString (n.Key ++ ": " ++ m))) := by
  unfold loopNodes
  rw [loop_cons, body_leaf _ _ _ _ _ _ hleaf]
  rcases leaf_cases lib nameParts false n [] [] with
    ⟨hp, _⟩ | ⟨_, m1, hu, hl⟩ | ⟨_, d1, hu, _, _⟩ | ⟨_, d1, hu, _, _⟩
  · exact absurd (fun h => absurd h (by simp)) hp
  · rw [hd] at hu
    injection hu with hu
    subst hu
    rw [hl]
  · rw [hd] at hu
    exact absurd hu (by simp)
  · rw [hd] at hu
    exact absurd hu (by simp)

/-- With the filter off, `loopNodes` returns an error exactly when a leaf of the forest does
not decode. -/
theorem loopNodes_unfiltered_error_iff (lib : Lib) (ns : List Node) (nameParts : List String)
    (bx : List Service) :
    (∃ err, (loopNodes lib ns nameParts false bx).2 = some err) ↔
      ∃ n ∈ leaves ns, ∃ m, lib.Unmarshal n.Value = .error m := by
  rw [loopNodes_eq_walk]
  obtain ⟨h1, h2⟩ := walk_error lib nameParts false (leaves ns) [] bx
  constructor
  · rintro ⟨err, herr⟩
    obtain ⟨_, pre, n, post, m, hsplit, _, _, hu, _⟩ := h1 err herr
    exact ⟨n, by simp [hsplit], m, hu⟩
  · rintro ⟨n, hn, m, hu⟩
    cases hres : (walkLeaves lib nameParts false (leaves ns) [] bx).1.2 with
    | some err => exact ⟨err, rfl⟩
    | none =>
      obtain ⟨d, hd⟩ := h2 hres n hn (fun h => absurd h (by simp))
      rw [hu] at hd
      exact absurd hd (by simp)

/-- The plan of a name of at most 127 labels, for a bound that is an `int8`, is never a
panic; when it sets `hasSubDomain`, the name is the name of the query and the guard of the
probe holds. -/
theorem plan_total (lib : Lib) (e : Etcd) (name : String) (qType : Nat)
    (h127 : (lib.SplitDomainName name).length ≤ 127) (hrange : e.WildcardBound ≤ 127) :
    ∃ name1 subPath hsd log,
      e.planWildcard lib name qType = some (name1, subPath, hsd, log) ∧
      (hsd = true → name1 = name ∧ qType ≠ TypeTXT ∧ 0 < e.WildcardBound ∧
        e.WildcardBound < (lib.SplitDomainName name).length) := by
  by_cases hg : e.WildcardBound > 0 ∧ qType ≠ TypeTXT ∧
      int8 (int8 (lib.SplitDomainName name).length - e.WildcardBound) > 0
  · obtain ⟨hb, hq, hlen⟩ := (guard_iff _ _ _ h127 hrange).1 hg
    by_cases hc : (e.hasSubDomains lib [] name).1 ≠ "" ∧ ¬ occursIn "*" name
    · exact ⟨_, _, _, _, plan_flat lib e name qType hb hq hlen h127 hc.1 hc.2,
        fun _ => ⟨rfl, hq, hb, hlen⟩⟩
    · have hc2 : (e.hasSubDomains lib [] name).1 = "" ∨ occursIn "*" name := by
        by_cases h1 : (e.hasSubDomains lib [] name).1 = ""
        · exact Or.inl h1
        · right
          by_contra h2
          exact hc ⟨h1, h2⟩
      exact ⟨_, _, _, _, plan_wild lib e name qType hb hq hlen h127 hc2,
        fun h => absurd h (by simp)⟩
  · exact ⟨_, _, _, _, plan_plain lib e name qType hg, fun h => absurd h (by simp)⟩

/-- For a name of at most 127 labels and a bound that is an `int8`, `Records` returns: no
slice expression panics. -/
theorem Records_some (lib : Lib) (e : Etcd) (state : Request) (exact : Bool)
    (h127 : (lib.SplitDomainName state.Name).length ≤ 127) (hrange : e.WildcardBound ≤ 127) :
    ∃ r, e.Records lib state exact = some r := by
  by_cases hany : e.Zones.any (fun zone => HasPrefix state.Name zone) = true
  · exact ⟨(([], none), []), by simp [Etcd.Records, hany]⟩
  · have hz : noZonePrefix e state.Name := (noZonePrefix_iff _ _).2 (by simpa using hany)
    obtain ⟨name1, subPath, hsd, log, hp, hinv⟩ :=
      plan_total lib e state.Name state.QType h127 hrange
    have hrec := Records_eq lib e state exact hz _ _ _ _ hp
    obtain ⟨ret, rest, hr⟩ := readAndWalk_some lib e exact
      (acmeRewrite lib name1 state.QType) hsd
      (e.planPath lib (acmeRewrite lib name1 state.QType) subPath hsd).1
      (e.planPath lib (acmeRewrite lib name1 state.QType) subPath hsd).2.1
      (e.planPath lib (acmeRewrite lib name1 state.QType) subPath hsd).2.2 log
      (by
        intro hs
        obtain ⟨hn, hq, hb, hlen⟩ := hinv hs
        rw [acmeRewrite_other lib _ _ hq, hn, int8_start _ _ hb hlen h127]
        omega)
    exact ⟨_, by rw [hrec, hr]⟩

/-- What `hasSubDomains` returns, by the answer of the store to the probe. -/
theorem hasSubDomains_error (lib : Lib) (e : Etcd) (log : List String) (name : String)
    (err : GoError) (h : e.Client.Get log (probeRoot lib e name) true = .error err) :
    (e.hasSubDomains lib log name).1 = "" := by
  unfold probeRoot at h
  simp [Etcd.hasSubDomains, Etcd.get, h]

theorem hasSubDomains_childless (lib : Lib) (e : Etcd) (log : List String) (name : String)
    (resp : Response) (h : e.Client.Get log (probeRoot lib e name) true = .ok resp)
    (hn : resp.Node.Nodes = []) : (e.hasSubDomains lib log name).1 = "" := by
  unfold probeRoot at h
  simp [Etcd.hasSubDomains, Etcd.get, h, hn]

theorem hasSubDomains_found (lib : Lib) (e : Etcd) (log : List String) (name : String)
    (resp : Response) (h : e.Client.Get log (probeRoot lib e name) true = .ok resp)
    (hn : resp.Node.Nodes ≠ []) : (e.hasSubDomains lib log name).1 = probeRoot lib e name := by
  have hpos : resp.Node.Nodes.length > 0 := List.length_pos.2 hn
  unfold probeRoot at h ⊢
  simp [Etcd.hasSubDomains, Etcd.get, h, hpos]

/-! ## The claims -/

/-- C1: with `e` the node's TTL converted to unsigned 32-bit and `r` the record's TTL, `TTL`
returns 300 when both are zero, `r` when only `e` is zero, `e` when only `r` is zero, and the
smaller of the two when both are non-zero. -/
theorem C1_TTL_cases (node : Node) (serv : Service) :
    (uint32 node.TTL = 0 ∧ serv.TTL = 0 → TTL node serv = 300) ∧
    (uint32 node.TTL = 0 ∧ serv.TTL ≠ 0 → TTL node serv = serv.TTL) ∧
    (uint32 node.TTL ≠ 0 ∧ serv.TTL = 0 → TTL node serv = uint32 node.TTL) ∧
    (uint32 node.TTL ≠ 0 ∧ serv.TTL ≠ 0 → TTL node serv = min (uint32 node.TTL) serv.TTL) := by
  unfold TTL
  refine ⟨?_, ?_, ?_, ?_⟩
  · rintro ⟨h1, h2⟩
    simp [h1, h2, ttl]
  · rintro ⟨h1, h2⟩
    simp [h1, h2]
  · rintro ⟨h1, h2⟩
    simp [h1, h2]
  · rintro ⟨h1, h2⟩
    simp only [h1, h2, false_and, if_false]
    split
    · rename_i hlt
      exact (Nat.min_eq_left (Nat.le_of_lt hlt)).symm
    · rename_i hge
      exact (Nat.min_eq_right (Nat.le_of_not_lt hge)).symm

/-- C1, at four leaves: no TTL at all, a record TTL only, a node TTL only, and both (the
node TTL 4294967356 is 60 as an unsigned 32-bit number). -/
theorem C1_TTL_cases_witness :
    TTL (leaf1 "/a" 0) ⟨"h", 0, 0, 0, "", 0, ""⟩ = 300 ∧
    TTL (leaf1 "/a" 0) ⟨"h", 0, 0, 0, "", 45, ""⟩ = 45 ∧
    TTL (leaf1 "/a" 4294967356) ⟨"h", 0, 0, 0, "", 0, ""⟩ = 60 ∧
    TTL (leaf1 "/a" 30) ⟨"h", 0, 0, 0, "", 45, ""⟩ = 30 :=
  ⟨(C1_TTL_cases (leaf1 "/a" 0) ⟨"h", 0, 0, 0, "", 0, ""⟩).1 (by decide),
   (C1_TTL_cases (leaf1 "/a" 0) ⟨"h", 0, 0, 0, "", 45, ""⟩).2.1 (by decide),
   (C1_TTL_cases (leaf1 "/a" 4294967356) ⟨"h", 0, 0, 0, "", 0, ""⟩).2.2.1 (by decide),
   (C1_TTL_cases (leaf1 "/a" 30) ⟨"h", 0, 0, 0, "", 45, ""⟩).2.2.2 (by decide)⟩

/-- C2: with `star` true, `loopNodes` keeps a leaf (treats it as the walk without a filter
does: decodes it) if and only if the query has no more segments than the key of the leaf and
every query segment is `*`, `any` or the key segment at its position; a leaf that fails the
test is skipped: it adds no record, raises no error and leaves the seen set alone, so the
walk goes on as if the leaf were not there. The segments `["*","b"]` keep the keys `a/b`
and `x/b` and reject the key `b`, here with a payload that does not decode. -/
theorem C2_wildcard_filter (lib : Lib) (nameParts : List String) (n : Node) (ns : List Node)
    (sx bx : List Service) (hleaf : n.Dir = false) :
    (wildcardKeep nameParts (Split n.Key '/') →
      loopNodes.body lib nameParts true n sx bx = loopNodes.body lib nameParts false n sx bx ∧
      loopNodes lib [n] nameParts true bx = loopNodes lib [n] nameParts false bx) ∧
    (¬ wildcardKeep nameParts (Split n.Key '/') →
      loopNodes.body lib nameParts true n sx bx = ((sx, none), bx) ∧
      loopNodes lib (n :: ns) nameParts true bx = loopNodes lib ns nameParts true bx) ∧
    (wildcardKeep ["*", "b"] (Split "a/b" '/') ∧ wildcardKeep ["*", "b"] (Split "x/b" '/') ∧
      ¬ wildcardKeep ["*", "b"] (Split "b" '/') ∧
      loopNodes exampleLib [leaf1 "a/b" 0, leaf1 "x/b" 0, badLeaf "b"] ["*", "b"] true [] =
        ([emitted (leaf1 "a/b" 0) ⟨"10.0.0.1", 0, 0, 0, "", 0, ""⟩,
          emitted (leaf1 "x/b" 0) ⟨"10.0.0.1", 0, 0, 0, "", 0, ""⟩], none)) := by
  refine ⟨?_, ?_, ?_, ?_, ?_, ?_⟩
  · intro hk
    have hb : loopNodes.body lib nameParts true n sx bx =
        loopNodes.body lib nameParts false n sx bx := by
      rw [body_leaf _ _ _ _ _ _ hleaf, body_leaf _ _ _ _ _ _ hleaf]
      exact leaf_star_keep lib nameParts n sx bx hk
    refine ⟨hb, ?_⟩
    unfold loopNodes
    rw [loop_cons, loop_cons, body_leaf _ _ _ _ _ _ hleaf, body_leaf _ _ _ _ _ _ hleaf,
      leaf_star_keep lib nameParts n [] bx hk]
    rcases loopNodes.leaf lib nameParts false n [] bx with ⟨⟨f, _ | err⟩, b1⟩
    · simp [loop_nil]
    · rfl
  · intro hk
    have hb : loopNodes.body lib nameParts true n sx bx = ((sx, none), bx) := by
      rw [body_leaf _ _ _ _ _ _ hleaf]
      exact leaf_star_skip lib nameParts n sx bx hk
    refine ⟨hb, ?_⟩
    unfold loopNodes
    rw [loop_cons, body_leaf _ _ _ _ _ _ hleaf, leaf_star_skip lib nameParts n [] bx hk]
  · exact (matchParts_iff_keep _ _).1 (by decide)
  · exact (matchParts_iff_keep _ _).1 (by decide)
  · intro hk
    exact absurd ((matchParts_iff_keep _ _).2 hk) (by decide)
  · decide

/-- C2, at the leaf of key `/skydns/local/east/web` and the segments of `web.*.local`: the
leaf is kept; and at the segments of `db.*.local` it is skipped. -/
theorem C2_wildcard_filter_witness :
    loopNodes exampleLib [leaf1 "/skydns/local/east/web" 0]
        ["", "skydns", "local", "*", "web"] true [] =
      loopNodes exampleLib [leaf1 "/skydns/local/east/web" 0]
        ["", "skydns", "local", "*", "web"] false [] ∧
    loopNodes exampleLib [leaf1 "/skydns/local/east/web" 0, leaf1 "/skydns/local/east/db" 0]
        ["", "skydns", "local", "*", "db"] true [] =
      loopNodes exampleLib [leaf1 "/skydns/local/east/db" 0]
        ["", "skydns", "local", "*", "db"] true [] :=
  ⟨((C2_wildcard_filter exampleLib ["", "skydns", "local", "*", "web"]
      (leaf1 "/skydns/local/east/web" 0) [] [] [] rfl).1
      ((matchParts_iff_keep _ _).1 (by decide))).2,
   ((C2_wildcard_filter exampleLib ["", "skydns", "local", "*", "db"]
      (leaf1 "/skydns/local/east/web" 0) [leaf1 "/skydns/local/east/db" 0] [] [] rfl).2.1
      (fun hk => absurd ((matchParts_iff_keep _ _).2 hk) (by decide))).2⟩

/-- C3: when a configured zone is a literal prefix of the query name, at a label boundary
or not, `Records` returns no record and no error, and reads nothing from the store. -/
theorem C3_zone_short_circuit (lib : Lib) (e : Etcd) (state : Request) (exact : Bool)
    (h : ∃ zone ∈ e.Zones, ∃ rest : String, state.Name = zone ++ rest) :
    e.Records lib state exact = some (([], none), []) := by
  obtain ⟨zone, hz, hrest⟩ := h
  have hany : e.Zones.any (fun zone => HasPrefix state.Name zone) = true := by
    rw [List.any_eq_true]
    exact ⟨zone, hz, (hasPrefix_iff _ _).2 hrest⟩
  simp [Etcd.Records, hany]

/-- C3, at the zone `example.com` and the name `example.com.evil.org.`, where the prefix does
not end at the end of the name: nothing is read, even from a store that would fail. -/
theorem C3_zone_short_circuit_witness :
    (⟨["rancher.cloud.", "example.com"], "skydns",
        storeOf (.error keyNotFound) (.error keyNotFound) (.error keyNotFound), 2⟩ : Etcd).Records
      exampleLib ⟨"example.com.evil.org.", 1⟩ false = some (([], none), []) :=
  C3_zone_short_circuit exampleLib _ ⟨"example.com.evil.org.", 1⟩ false
    ⟨"example.com", by decide, ".evil.org.", by decide⟩

/-- C4: `loopNodes` returns an error if and only if some leaf of the forest that the
positional wildcard filter does not reject has a payload that does not decode. The error
then comes with no record at all; it is raised at the first such leaf in the order of the
walk (every leaf before it that passes the filter decodes), and its text is the key of that
leaf, `": "`, and the message of the decoder. -/
theorem C4_decode_error (lib : Lib) (ns : List Node) (nameParts : List String) (star : Bool)
    (bx : List Service) :
    ((∃ err, (loopNodes lib ns nameParts star bx).2 = some err) ↔
      ∃ n ∈ leaves ns, passesFilter nameParts star n ∧
        ∃ m, lib.Unmarshal n.Value = .error m) ∧
    (∀ err, (loopNodes lib ns nameParts star bx).2 = some err →
      (loopNodes lib ns nameParts star bx).1 = [] ∧
      ∃ pre n post m, leaves ns = pre ++ n :: post ∧
        (∀ k ∈ pre, passesFilter nameParts star k → ∃ d, lib.Unmarshal k.Value = .ok d) ∧
        passesFilter nameParts star n ∧ lib.Unmarshal n.Value = .error m ∧
        err = .errorString (n.Key ++ ": " ++ m)) := by
  rw [loopNodes_eq_walk]
  obtain ⟨h1, h2⟩ := walk_error lib nameParts star (leaves ns) [] bx
  refine ⟨⟨?_, ?_⟩, h1⟩
  · rintro ⟨err, herr⟩
    obtain ⟨_, pre, n, post, m, hsplit, _, hp, hu, _⟩ := h1 err herr
    exact ⟨n, by simp [hsplit], hp, m, hu⟩
  · rintro ⟨n, hn, hp, m, hu⟩
    cases hres : (walkLeaves lib nameParts star (leaves ns) [] bx).1.2 with
    | some err => exact ⟨err, rfl⟩
    | none =>
      obtain ⟨d, hd⟩ := h2 hres n hn hp
      rw [hu] at hd
      exact absurd hd (by simp)

/-- C4, at a directory with a good leaf followed by a leaf that does not decode: the walk
returns the error of the second leaf and drops the record of the first. -/
theorem C4_decode_error_witness :
    loopNodes exampleLib [dir "/skydns/a" [leaf1 "/skydns/a/x" 0, badLeaf "/skydns/a/y"]]
        ["", "skydns", "a"] false [] =
      ([], some (.errorString "/skydns/a/y: unexpected end of JSON input")) ∧
    ∃ pre n post m,
      leaves [dir "/skydns/a" [leaf1 "/skydns/a/x" 0, badLeaf "/skydns/a/y"]] =
        pre ++ n :: post ∧
      (∀ k ∈ pre, passesFilter ["", "skydns", "a"] false k →
        ∃ d, exampleLib.Unmarshal k.Value = .ok d) ∧
      passesFilter ["", "skydns", "a"] false n ∧ exampleLib.Unmarshal n.Value = .error m ∧
      GoError.errorString "/skydns/a/y: unexpected end of JSON input" =
        .errorString (n.Key ++ ": " ++ m) :=
  ⟨by decide,
   ((C4_decode_error exampleLib
      [dir "/skydns/a" [leaf1 "/skydns/a/x" 0, badLeaf "/skydns/a/y"]]
      ["", "skydns", "a"] false []).2
      (.errorString "/skydns/a/y: unexpected end of JSON input") (by decide)).2⟩

/-- C5: every record that `loopNodes` returns is the record of a leaf of the forest whose
payload decodes: it has the key of the leaf, priority 10 when the decoded priority is 0, and
the decoded priority otherwise. Hence no record that `loopNodes` or `Records` returns has
priority 0. -/
theorem C5_priority_default (lib : Lib) (e : Etcd) (ns : List Node) (nameParts : List String)
    (star : Bool) (bx : List Service) :
    (∀ s ∈ (loopNodes lib ns nameParts star bx).1,
      (∃ n ∈ leaves ns, ∃ d, lib.Unmarshal n.Value = .ok d ∧ s.Key = n.Key ∧
        (d.Priority = 0 → s.Priority = 10) ∧ (d.Priority ≠ 0 → s.Priority = d.Priority)) ∧
      s.Priority ≠ 0) ∧
    (∀ (state : Request) (exact : Bool) (r : Ret) (log : List String),
      e.Records lib state exact = some (r, log) → ∀ s ∈ r.1, s.Priority ≠ 0) := by
  constructor
  · intro s hs
    obtain ⟨n, hn, d, _, hu, hse⟩ := loopNodes_mem lib ns nameParts star bx s hs
    subst hse
    refine ⟨⟨n, hn, d, hu, rfl, ?_, ?_⟩, emitted_priority n d⟩
    · intro h0; simp [emitted, h0]
    · intro h0; simp [emitted, h0]
  · intro state exact r log hr s hs
    rcases Records_result lib e state exact r log hr with h | ⟨ns1, parts, st, h⟩
    · rw [h] at hs
      simp at hs
    · subst h
      obtain ⟨n, _, d, _, _, hse⟩ := loopNodes_mem lib ns1 parts st [] s hs
      subst hse
      exact emitted_priority n d

/-- C5, at a walk that emits a record of decoded priority 0, and at a query whose read
returns a leaf. -/
theorem C5_priority_default_witness :
    ((∃ n ∈ leaves [dir "/skydns/a" [leaf1 "/skydns/a/x" 0, leaf2 "/skydns/a/y" 0]],
        ∃ d, exampleLib.Unmarshal n.Value = .ok d ∧ (record1 "/skydns/a/x").Key = n.Key ∧
          (d.Priority = 0 → (record1 "/skydns/a/x").Priority = 10) ∧
          (d.Priority ≠ 0 → (record1 "/skydns/a/x").Priority = d.Priority)) ∧
      (record1 "/skydns/a/x").Priority ≠ 0) ∧
    (record1 "/skydns/cloud/rancher/lb/a1/api").Priority ≠ 0 :=
  ⟨(C5_priority_default exampleLib (exampleEtcd leafStore 0)
      [dir "/skydns/a" [leaf1 "/skydns/a/x" 0, leaf2 "/skydns/a/y" 0]] ["", "skydns", "a"]
      false []).1 (record1 "/skydns/a/x") (by decide),
   (C5_priority_default exampleLib (exampleEtcd leafStore 0) [] [] false []).2
      ⟨"api.a1.lb.rancher.cloud.", 1⟩ false
      ([record1 "/skydns/cloud/rancher/lb/a1/api"], none) ["/skydns/cloud/rancher/lb/a1/api"]
      (by decide) (record1 "/skydns/cloud/rancher/lb/a1/api") (by decide)⟩

/-- C6: the exact query `api.a1.lb.rancher.cloud.` with bound 4, when the probe finds a
subtree, the read of the flattened path misses and the fallback read fetches a directory:
`Records` returns the two records of that directory, not an empty list. When the planned
read itself fetches a directory, the same query returns the empty list. -/
theorem C6_fallback_ignores_exact :
    (exampleEtcd missStore 4).Records exampleLib ⟨"api.a1.lb.rancher.cloud.", 1⟩ true =
      some (([record1 "/skydns/cloud/rancher/lb/a1/x1",
          record2 "/skydns/cloud/rancher/lb/a1/x2"], none),
        ["/skydns/_sub/cloud/rancher/lb/a1", "/skydns/_sub/cloud/rancher/lb/a1/api",
          "/skydns/cloud/rancher/lb/a1/*"]) ∧
    (exampleEtcd hitStore 4).Records exampleLib ⟨"api.a1.lb.rancher.cloud.", 1⟩ true =
      some (([], none),
        ["/skydns/_sub/cloud/rancher/lb/a1", "/skydns/_sub/cloud/rancher/lb/a1/api"]) := by
  constructor <;> decide

/-- C7: a query that is not a TXT query, with bound `b > 0`, a name of more than `b` (and, as
a DNS name, at most 127) labels that has no zone as a prefix and contains no `*`, for which
the probe found a subtree and the read of the flattened-subdomain path returned a not-found
error. `Records` issues exactly one more read, at the path `msg.PathWithWildcard` gives for
`*.` and the rightmost `b` labels joined by dots. If that read succeeds, `Records` returns
`loopNodes` over the children of the fetched node, with the segments of `msg.Path` of that
name and the star flag `msg.PathWithWildcard` returned; if it fails, `Records` returns its
error and no records. -/
theorem C7_fallback_read (lib : Lib) (e : Etcd) (state : Request) (exact : Bool)
    (err1 : GoError)
    (hb : 0 < e.WildcardBound) (hq : state.QType ≠ TypeTXT)
    (hlen : e.WildcardBound < (lib.SplitDomainName state.Name).length)
    (h127 : (lib.SplitDomainName state.Name).length ≤ 127)
    (hz : noZonePrefix e state.Name)
    (hprobe : (e.hasSubDomains lib [] state.Name).1 ≠ "")
    (hstar : ¬ occursIn "*" state.Name)
    (hmiss : e.Client.Get [probeRoot lib e state.Name] (flatPath lib e state.Name) true =
      .error err1)
    (hnf : IsKeyNotFound err1 = true) :
    (∀ resp,
      e.Client.Get [probeRoot lib e state.Name, flatPath lib e state.Name]
        (lib.PathWithWildcard (wildcardName e.WildcardBound (lib.SplitDomainName state.Name))
          e.PathPrefix).1 true = .ok resp →
      e.Records lib state exact =
        some (loopNodes lib resp.Node.Nodes
            (Split (lib.Path (wildcardName e.WildcardBound (lib.SplitDomainName state.Name))
              e.PathPrefix) '/')
            (lib.PathWithWildcard
              (wildcardName e.WildcardBound (lib.SplitDomainName state.Name))
              e.PathPrefix).2 [],
          [probeRoot lib e state.Name, flatPath lib e state.Name,
            (lib.PathWithWildcard
              (wildcardName e.WildcardBound (lib.SplitDomainName state.Name))
              e.PathPrefix).1])) ∧
    (∀ err2,
      e.Client.Get [probeRoot lib e state.Name, flatPath lib e state.Name]
        (lib.PathWithWildcard (wildcardName e.WildcardBound (lib.SplitDomainName state.Name))
          e.PathPrefix).1 true = .error err2 →
      e.Records lib state exact =
        some (([], some err2),
          [probeRoot lib e state.Name, flatPath lib e state.Name,
            (lib.PathWithWildcard
              (wildcardName e.WildcardBound (lib.SplitDomainName state.Name))
              e.PathPrefix).1])) := by
  have hplan := plan_flat lib e state.Name state.QType hb hq hlen h127 hprobe hstar
  have hrec := Records_eq lib e state exact hz _ _ _ _ hplan
  rw [acmeRewrite_other lib _ _ hq, planPath_flat] at hrec
  simp only at hrec
  rw [readAndWalk_fallback lib e exact state.Name _ _ _ _ err1 hb hlen h127
    (by simpa using hmiss) hnf] at hrec
  simp only [List.nil_append, List.singleton_append, List.cons_append] at hrec
  constructor
  · intro resp hresp
    rw [hrec, hresp]
  · intro err2 herr2
    rw [hrec, herr2]

/-- C7, at the query `api.a1.lb.rancher.cloud.` with bound 4 and a store where the probe
finds a subtree, the flattened path misses and the fallback read returns a directory with
two leaves: both records come back, after three reads, from a walk with the star flag set. -/
theorem C7_fallback_read_witness :
    (exampleEtcd missStore 4).Records exampleLib ⟨"api.a1.lb.rancher.cloud.", 1⟩ false =
      some (loopNodes exampleLib
          [leaf1 "/skydns/cloud/rancher/lb/a1/x1" 0, leaf2 "/skydns/cloud/rancher/lb/a1/x2" 0]
          ["", "skydns", "cloud", "rancher", "lb", "a1", "*"] true [],
        ["/skydns/_sub/cloud/rancher/lb/a1", "/skydns/_sub/cloud/rancher/lb/a1/api",
          "/skydns/cloud/rancher/lb/a1/*"]) :=
  (C7_fallback_read exampleLib (exampleEtcd missStore 4) ⟨"api.a1.lb.rancher.cloud.", 1⟩ false
    keyNotFound (by decide) (by decide) (by decide) (by decide)
    ((noZonePrefix_iff _ _).2 (by decide)) (by decide)
    ((contains_false_iff _ _).1 (by decide)) rfl (by decide)).1
    ⟨dir "/skydns/cloud/rancher/lb/a1"
      [leaf1 "/skydns/cloud/rancher/lb/a1/x1" 0, leaf2 "/skydns/cloud/rancher/lb/a1/x2" 0]⟩
    rfl

/-- C8, as stated, fails at the name `a*b.a1.lb.rancher.cloud.` with bound 4: the query is
not a TXT query, the name has five labels, none of them the label `*`, no zone is a prefix
of it and the probe finds a subtree; but `Records` reads the generic-wildcard path after the
probe, not the flattened-subdomain path. -/
theorem C8_counterexample :
    (0 : Int) < (exampleEtcd wildStore 4).WildcardBound ∧ (1 : Nat) ≠ TypeTXT ∧
    (exampleEtcd wildStore 4).WildcardBound <
      (exampleLib.SplitDomainName "a*b.a1.lb.rancher.cloud.").length ∧
    (exampleLib.SplitDomainName "a*b.a1.lb.rancher.cloud.").length ≤ 127 ∧
    noZonePrefix (exampleEtcd wildStore 4) "a*b.a1.lb.rancher.cloud." ∧
    ((exampleEtcd wildStore 4).hasSubDomains exampleLib [] "a*b.a1.lb.rancher.cloud.").1 ≠ "" ∧
    "*" ∉ exampleLib.SplitDomainName "a*b.a1.lb.rancher.cloud." ∧
    (exampleEtcd wildStore 4).Records exampleLib ⟨"a*b.a1.lb.rancher.cloud.", 1⟩ false =
      some (([record1 "/skydns/cloud/rancher/lb/a1/x1"], none),
        ["/skydns/_sub/cloud/rancher/lb/a1", "/skydns/cloud/rancher/lb/a1/*"]) ∧
    ¬ readsFlattened exampleLib (exampleEtcd wildStore 4) ⟨"a*b.a1.lb.rancher.cloud.", 1⟩
      false := by
  have hrec : (exampleEtcd wildStore 4).Records exampleLib ⟨"a*b.a1.lb.rancher.cloud.", 1⟩
      false =
      some (([record1 "/skydns/cloud/rancher/lb/a1/x1"], none),
        ["/skydns/_sub/cloud/rancher/lb/a1", "/skydns/cloud/rancher/lb/a1/*"]) := by
    decide
  refine ⟨by decide, by decide, by decide, by decide, (noZonePrefix_iff _ _).2 (by decide),
    by decide, by decide, hrec, ?_⟩
  rintro ⟨⟨r, hr, htake⟩, _⟩
  rw [hrec] at hr
  injection hr with hr
  subst hr
  revert htake
  decide

/-- C8, amended: a query that is not a TXT query, with bound `b > 0` and a name of more than
`b` (and, as a DNS name, at most 127) labels that has no zone as a prefix. Whenever the
probe finds a subtree and the character `*` occurs nowhere in the name, `Records` reads the
probe root and then the flattened-subdomain path (`msg.PathSubDomain` of the probe root,
`b` and all the labels of the name), and when that read succeeds it walks what it fetched
with wildcard mode false. -/
theorem C8_flattened_plan (lib : Lib) (e : Etcd) (state : Request) (exact : Bool)
    (hb : 0 < e.WildcardBound) (hq : state.QType ≠ TypeTXT)
    (hlen : e.WildcardBound < (lib.SplitDomainName state.Name).length)
    (h127 : (lib.SplitDomainName state.Name).length ≤ 127)
    (hz : noZonePrefix e state.Name)
    (hprobe : (e.hasSubDomains lib [] state.Name).1 ≠ "")
    (hstar : ¬ occursIn "*" state.Name) :
    readsFlattened lib e state exact := by
  have hplan := plan_flat lib e state.Name state.QType hb hq hlen h127 hprobe hstar
  have hrec := Records_eq lib e state exact hz _ _ _ _ hplan
  rw [acmeRewrite_other lib _ _ hq, planPath_flat] at hrec
  simp only at hrec
  constructor
  · rw [hrec]
    cases hget : e.Client.Get [probeRoot lib e state.Name] (flatPath lib e state.Name) true with
    | ok resp =>
      rw [readAndWalk_ok lib e exact _ _ _ _ _ _ resp hget]
      exact ⟨_, rfl, rfl⟩
    | error err =>
      by_cases hnf : IsKeyNotFound err = true
      · rw [readAndWalk_fallback lib e exact state.Name _ _ _ _ err hb hlen h127 hget hnf]
        split
        · exact ⟨_, rfl, rfl⟩
        · exact ⟨_, rfl, rfl⟩
      · rw [readAndWalk_error lib e exact _ _ _ _ _ _ err hget (fun h => hnf h.2)]
        exact ⟨_, rfl, rfl⟩
  · intro resp hget
    rw [hrec, readAndWalk_ok lib e exact _ _ _ _ _ _ resp hget]
    rfl

/-- C8 amended, at the query `api.a1.lb.rancher.cloud.` with bound 4 and a store where the
probe finds a subtree and the flattened path holds a directory with one leaf. -/
theorem C8_flattened_plan_witness :
    readsFlattened exampleLib (exampleEtcd hitStore 4) ⟨"api.a1.lb.rancher.cloud.", 1⟩ false :=
  C8_flattened_plan exampleLib (exampleEtcd hitStore 4) ⟨"api.a1.lb.rancher.cloud.", 1⟩ false
    (by decide) (by decide) (by decide) (by decide) ((noZonePrefix_iff _ _).2 (by decide))
    (by decide) ((contains_false_iff _ _).1 (by decide))

/-- C9, as stated, fails at the query `api.a1.lb.rancher.cloud.` with bound 0 and a store
that has no such key: the plan is the ordinary path (no fallback applies), the read reports
not-found, and `Records` returns that error, not a nil error. -/
theorem C9_counterexample :
    (exampleEtcd emptyStore 0).planWildcard exampleLib "api.a1.lb.rancher.cloud." 1 =
      some ("api.a1.lb.rancher.cloud.", "", false, []) ∧
    IsKeyNotFound keyNotFound = true ∧
    (exampleEtcd emptyStore 0).Records exampleLib ⟨"api.a1.lb.rancher.cloud.", 1⟩ false =
      some (([], some keyNotFound), ["/skydns/cloud/rancher/lb/a1/api"]) ∧
    ¬ ∃ log, (exampleEtcd emptyStore 0).Records exampleLib ⟨"api.a1.lb.rancher.cloud.", 1⟩
      false = some (([], none), log) := by
  refine ⟨by decide, by decide, by decide, ?_⟩
  rintro ⟨log, h⟩
  revert h
  rw [show (exampleEtcd emptyStore 0).Records exampleLib ⟨"api.a1.lb.rancher.cloud.", 1⟩
      false = some (([], some keyNotFound), ["/skydns/cloud/rancher/lb/a1/api"]) by decide]
  simp

/-- C9, amended: when no fallback applies (the plan is not the flattened-subdomain path) and
the read of the planned path fails, `Records` returns no record together with the error of
that read, and reads nothing more; an error that is not-found is one that `IsNameError`
recognises. -/
theorem C9_not_found_returned (lib : Lib) (e : Etcd) (state : Request) (exact : Bool)
    (name subPath : String) (log : List String) (err : GoError)
    (hz : noZonePrefix e state.Name)
    (hplan : e.planWildcard lib state.Name state.QType = some (name, subPath, false, log))
    (hread : e.Client.Get log
      (lib.PathWithWildcard (acmeRewrite lib name state.QType) e.PathPrefix).1 true =
        .error err)
    (hnf : IsKeyNotFound err = true) :
    e.Records lib state exact =
      some (([], some err),
        log ++ [(lib.PathWithWildcard (acmeRewrite lib name state.QType) e.PathPrefix).1]) ∧
    IsNameError err = true := by
  have hrec := Records_eq lib e state exact hz _ _ _ _ hplan
  rw [planPath_plain] at hrec
  simp only at hrec
  rw [readAndWalk_error lib e exact _ _ _ _ _ _ err hread (by simp)] at hrec
  refine ⟨hrec, ?_⟩
  cases err with
  | etcd code m => simpa [IsNameError, IsKeyNotFound] using hnf
  | errorString t => simp [IsKeyNotFound] at hnf

/-- C9 amended, at the query `api.a1.lb.rancher.cloud.` with bound 0 and a store that has no
such key. -/
theorem C9_not_found_returned_witness :
    (exampleEtcd emptyStore 0).Records exampleLib ⟨"api.a1.lb.rancher.cloud.", 1⟩ true =
      some (([], some keyNotFound), ["/skydns/cloud/rancher/lb/a1/api"]) ∧
    IsNameError keyNotFound = true :=
  C9_not_found_returned exampleLib (exampleEtcd emptyStore 0) ⟨"api.a1.lb.rancher.cloud.", 1⟩
    true "api.a1.lb.rancher.cloud." "" [] keyNotFound ((noZonePrefix_iff _ _).2 (by decide))
    (by decide) rfl (by decide)

/-- C10: a TXT query whose name contains `_acme-challenge`, has no zone as a prefix and
splits into the labels `l0, l1, ..., ln`. The name that `Records` hands to the construction
of the path (to `msg.PathWithWildcard` for the path and the star flag, to `msg.Path` for the
segments) is `ln.….l1.l0._txt`: the labels in reverse order and then the label `_txt`. For
`_acme-challenge.a1.lb.rancher.cloud.` it is `cloud.rancher.lb.a1._acme-challenge._txt`,
whose path under the prefix `skydns`, labels reversed, is
`/skydns/_txt/_acme-challenge/a1/lb/rancher/cloud`. -/
theorem C10_acme_txt_name (lib : Lib) (e : Etcd) (state : Request) (exact : Bool)
    (l0 : String) (ls : List String)
    (hq : state.QType = TypeTXT) (hc : occursIn "_acme-challenge" state.Name)
    (hl : lib.SplitDomainName state.Name = l0 :: ls) (hz : noZonePrefix e state.Name) :
    acmeRewrite lib state.Name state.QType = Join ((l0 :: ls).reverse ++ ["_txt"]) "." ∧
    e.Records lib state exact =
      e.readAndWalk lib exact (Join ((l0 :: ls).reverse ++ ["_txt"]) ".") false
        (lib.PathWithWildcard (Join ((l0 :: ls).reverse ++ ["_txt"]) ".") e.PathPrefix).1
        (Split (lib.Path (Join ((l0 :: ls).reverse ++ ["_txt"]) ".") e.PathPrefix) '/')
        (lib.PathWithWildcard (Join ((l0 :: ls).reverse ++ ["_txt"]) ".") e.PathPrefix).2
        [] ∧
    modelSplitDomainName "_acme-challenge.a1.lb.rancher.cloud." =
      ["_acme-challenge", "a1", "lb", "rancher", "cloud"] ∧
    acmeRewrite exampleLib "_acme-challenge.a1.lb.rancher.cloud." TypeTXT =
      "cloud.rancher.lb.a1._acme-challenge._txt" ∧
    modelPath "cloud.rancher.lb.a1._acme-challenge._txt" "skydns" =
      "/skydns/_txt/_acme-challenge/a1/lb/rancher/cloud" := by
  have hname : acmeRewrite lib state.Name state.QType =
      Join ((l0 :: ls).reverse ++ ["_txt"]) "." := by
    unfold acmeRewrite
    rw [if_pos ⟨hq, (contains_iff _ _).2 hc⟩, hl, acmeName_eq]
  have hplan : e.planWildcard lib state.Name state.QType = some (state.Name, "", false, []) :=
    plan_plain lib e state.Name state.QType (fun h => h.2.1 hq)
  have hrec := Records_eq lib e state exact hz _ _ _ _ hplan
  rw [planPath_plain, hname] at hrec
  exact ⟨hname, hrec, by decide, by decide, by decide⟩

/-- C10, at the TXT query `_acme-challenge.a1.lb.rancher.cloud.` and a store that holds a
leaf at the path read. -/
theorem C10_acme_txt_name_witness :
    acmeRewrite exampleLib "_acme-challenge.a1.lb.rancher.cloud." 16 =
      "cloud.rancher.lb.a1._acme-challenge._txt" ∧
    (exampleEtcd leafStore 4).Records exampleLib ⟨"_acme-challenge.a1.lb.rancher.cloud.", 16⟩
        false =
      some (([record1 "/skydns/cloud/rancher/lb/a1/api"], none),
        ["/skydns/_txt/_acme-challenge/a1/lb/rancher/cloud"]) :=
  ⟨(C10_acme_txt_name exampleLib (exampleEtcd leafStore 4)
      ⟨"_acme-challenge.a1.lb.rancher.cloud.", 16⟩ false "_acme-challenge"
      ["a1", "lb", "rancher", "cloud"] rfl ((contains_iff _ _).1 (by decide)) (by decide)
      ((noZonePrefix_iff _ _).2 (by decide))).1,
   (C10_acme_txt_name exampleLib (exampleEtcd leafStore 4)
      ⟨"_acme-challenge.a1.lb.rancher.cloud.", 16⟩ false "_acme-challenge"
      ["a1", "lb", "rancher", "cloud"] rfl ((contains_iff _ _).1 (by decide)) (by decide)
      ((noZonePrefix_iff _ _).2 (by decide))).2.1⟩

/-- C16: for every forest, segment list, star flag and seen set (a fresh one in particular),
`loopNodes` on the forest returns what `loopNodes` returns on the flat list of the leaves of
the forest, taken depth-first and left to right: the same records in the same order, or the
same error. A directory contributes what its children contribute in its place, with the
seen set shared: it can be replaced by the list of its children. -/
theorem C16_forest_is_flat_walk (lib : Lib) (ns : List Node) (nameParts : List String)
    (star : Bool) (bx : List Service) :
    loopNodes lib ns nameParts star bx = loopNodes lib (leaves ns) nameParts star bx ∧
    (∀ (key value : String) (nodes : List Node) (nttl : Int) (rest : List Node),
      loopNodes lib (.mk key true value nodes nttl :: rest) nameParts star bx =
        loopNodes lib (nodes ++ rest) nameParts star bx) := by
  constructor
  · rw [loopNodes_eq_walk, loopNodes_eq_walk, leaves_idem]
  · intro key value nodes nttl rest
    rw [loopNodes_eq_walk, loopNodes_eq_walk, leaves_dir_cons]

/-- C12: on a forest on which `loopNodes`, called with the empty seen set as `Records` calls
it, returns a result (no error), every two leaves that decode to the same host, port,
priority, weight and text, have different keys and pass the filter are not merged: each has
its record in the result, two different records with the keys of the two leaves, equal in
the five other fields. -/
theorem C12_distinct_keys_both_emitted (lib : Lib) (ns : List Node) (nameParts : List String)
    (star : Bool) (n1 n2 : Node) (d1 d2 : Service)
    (hok : (loopNodes lib ns nameParts star []).2 = none)
    (h1 : n1 ∈ leaves ns) (h2 : n2 ∈ leaves ns)
    (hd1 : lib.Unmarshal n1.Value = .ok d1) (hd2 : lib.Unmarshal n2.Value = .ok d2)
    (hp1 : passesFilter nameParts star n1) (hp2 : passesFilter nameParts star n2)
    (hsame : d1.Host = d2.Host ∧ d1.Port = d2.Port ∧ d1.Priority = d2.Priority ∧
      d1.Weight = d2.Weight ∧ d1.Text = d2.Text)
    (hkey : n1.Key ≠ n2.Key) :
    ∃ s1 ∈ (loopNodes lib ns nameParts star []).1,
      ∃ s2 ∈ (loopNodes lib ns nameParts star []).1,
        s1.Key = n1.Key ∧ s2.Key = n2.Key ∧ s1 ≠ s2 ∧
        s1.Host = s2.Host ∧ s1.Port = s2.Port ∧ s1.Priority = s2.Priority ∧
        s1.Weight = s2.Weight ∧ s1.Text = s2.Text := by
  obtain ⟨s1, hs1, k1, a1, b1, c1, e1, f1⟩ :=
    loopNodes_complete lib ns nameParts star hok n1 d1 h1 hp1 hd1
  obtain ⟨s2, hs2, k2, a2, b2, c2, e2, f2⟩ :=
    loopNodes_complete lib ns nameParts star hok n2 d2 h2 hp2 hd2
  obtain ⟨g1, g2, g3, g4, g5⟩ := hsame
  refine ⟨s1, hs1, s2, hs2, k1, k2, ?_, ?_, ?_, ?_, ?_, ?_⟩
  · intro h
    apply hkey
    rw [← k1, ← k2, h]
  · rw [a1, a2, g1]
  · rw [b1, b2, g2]
  · rw [c1, c2, g3]
  · rw [e1, e2, g4]
  · rw [f1, f2, g5]

/-- C12, at the forest of the leaves `/skydns/a/x` and `/skydns/a/y` with the same payload:
both records are in the result. -/
theorem C12_distinct_keys_both_emitted_witness :
    loopNodes exampleLib [dir "/skydns/a" [leaf1 "/skydns/a/x" 0, leaf1 "/skydns/a/y" 0]]
        ["", "skydns", "a"] false [] =
      ([record1 "/skydns/a/x", record1 "/skydns/a/y"], none) ∧
    ∃ s1 ∈ [record1 "/skydns/a/x", record1 "/skydns/a/y"],
      ∃ s2 ∈ [record1 "/skydns/a/x", record1 "/skydns/a/y"],
        s1.Key = "/skydns/a/x" ∧ s2.Key = "/skydns/a/y" ∧ s1 ≠ s2 ∧
        s1.Host = s2.Host ∧ s1.Port = s2.Port ∧ s1.Priority = s2.Priority ∧
        s1.Weight = s2.Weight ∧ s1.Text = s2.Text :=
  ⟨by decide,
   C12_distinct_keys_both_emitted exampleLib
    [dir "/skydns/a" [leaf1 "/skydns/a/x" 0, leaf1 "/skydns/a/y" 0]] ["", "skydns", "a"] false
    (leaf1 "/skydns/a/x" 0) (leaf1 "/skydns/a/y" 0) payload1 payload1 (by decide)
    (by show leaf1 "/skydns/a/x" 0 ∈ [leaf1 "/skydns/a/x" 0, leaf1 "/skydns/a/y" 0]; simp)
    (by show leaf1 "/skydns/a/y" 0 ∈ [leaf1 "/skydns/a/x" 0, leaf1 "/skydns/a/y" 0]; simp)
    rfl rfl (fun h => absurd h (by simp)) (fun h => absurd h (by simp))
    ⟨rfl, rfl, rfl, rfl, rfl⟩ (by decide)⟩

/-- C17: on a forest on which `loopNodes` succeeds, the returned list is deduplicated: no two
records in it agree on all of host, port, priority, weight, text and key. The forest is one
a store can return: leaves with the same key (the same node, reached twice) have the same
payload. The records are those of a list of leaves of the forest with their decoded
payloads, in order, and the comparison tuples of these leaves are pairwise different. -/
theorem C17_deduplicated (lib : Lib) (ns : List Node) (nameParts : List String)
    (star : Bool) (bx : List Service)
    (hok : (loopNodes lib ns nameParts star bx).2 = none)
    (hstore : ∀ n1 ∈ leaves ns, ∀ n2 ∈ leaves ns, n1.Key = n2.Key → n1.Value = n2.Value) :
    deduplicated (loopNodes lib ns nameParts star bx).1 ∧
    ∃ ps : List (Node × Service),
      (loopNodes lib ns nameParts star bx).1 = ps.map (fun p => emitted p.1 p.2) ∧
      (∀ p ∈ ps, p.1 ∈ leaves ns ∧ lib.Unmarshal p.1.Value = .ok p.2) ∧
      (ps.map (fun p => dedupKey p.1 p.2)).Nodup := by
  rw [loopNodes_eq_walk] at hok ⊢
  obtain ⟨ps, h1, _, h3, h4, _, _⟩ := walk_trace lib nameParts star (leaves ns) [] bx hok
  simp only [List.nil_append] at h1
  refine ⟨?_, ps, h1, fun p hp => ⟨(h3 p hp).1, (h3 p hp).2.2⟩, h4⟩
  rw [h1]
  unfold deduplicated
  rw [List.pairwise_map]
  have hpw : ps.Pairwise (fun p q => dedupKey p.1 p.2 ≠ dedupKey q.1 q.2) := by
    have := h4
    unfold List.Nodup at this
    rw [List.pairwise_map] at this
    exact this
  refine List.Pairwise.imp_of_mem ?_ hpw
  intro p q hp hq hne hsix
  apply hne
  have hkey : p.1.Key = q.1.Key := hsix.2.2.2.2.2
  have hval := hstore p.1 (h3 p hp).1 q.1 (h3 q hq).1 hkey
  have hp2 := (h3 p hp).2.2
  have hq2 := (h3 q hq).2.2
  rw [hval, hq2] at hp2
  injection hp2 with hp2
  unfold dedupKey
  rw [hkey, hp2]

/-- C17, at a forest that reaches the leaf `/skydns/a/x` twice, once below its directory and
once more after it: the walk succeeds, and the result holds its record once. -/
theorem C17_deduplicated_witness :
    loopNodes exampleLib
        [dir "/skydns/a" [leaf1 "/skydns/a/x" 0, leaf2 "/skydns/a/y" 0], leaf1 "/skydns/a/x" 0]
        ["", "skydns", "a"] false [] =
      ([record1 "/skydns/a/x", record2 "/skydns/a/y"], none) ∧
    deduplicated (loopNodes exampleLib
        [dir "/skydns/a" [leaf1 "/skydns/a/x" 0, leaf2 "/skydns/a/y" 0], leaf1 "/skydns/a/x" 0]
        ["", "skydns", "a"] false []).1 :=
  ⟨by decide,
   (C17_deduplicated exampleLib
    [dir "/skydns/a" [leaf1 "/skydns/a/x" 0, leaf2 "/skydns/a/y" 0], leaf1 "/skydns/a/x" 0]
    ["", "skydns", "a"] false [] (by decide)
    (by
      intro n1 h1 n2 h2 hk
      have h1l : n1 ∈
          [leaf1 "/skydns/a/x" 0, leaf2 "/skydns/a/y" 0, leaf1 "/skydns/a/x" 0] := h1
      have h2l : n2 ∈
          [leaf1 "/skydns/a/x" 0, leaf2 "/skydns/a/y" 0, leaf1 "/skydns/a/x" 0] := h2
      simp only [List.mem_cons, List.mem_singleton, List.not_mem_nil, or_false] at h1l h2l
      rcases h1l with h1l | h1l | h1l <;> rcases h2l with h2l | h2l | h2l <;>
        subst h1l <;> subst h2l <;> first | rfl | exact absurd hk (by decide))).1⟩

/-- C19: on a forest and segment list on which `loopNodes` with `star` false succeeds,
`loopNodes` with `star` true succeeds too, and its result is the result of the walk with
`star` false filtered, in order, to the records whose key passes the positional wildcard
match against the segments. -/
theorem C19_star_is_filter (lib : Lib) (ns : List Node) (nameParts : List String)
    (bx : List Service) (hok : (loopNodes lib ns nameParts false bx).2 = none) :
    (loopNodes lib ns nameParts true bx).2 = none ∧
    (loopNodes lib ns nameParts true bx).1 =
      (loopNodes lib ns nameParts false bx).1.filter (keepKey nameParts) ∧
    (∀ s : Service, keepKey nameParts s = true ↔ wildcardKeep nameParts (Split s.Key '/')) := by
  rw [loopNodes_eq_walk] at hok
  rw [loopNodes_eq_walk, loopNodes_eq_walk]
  obtain ⟨h1, h2⟩ := walk_filter lib nameParts (leaves ns) [] bx [] bx
    (fun _ _ => Iff.rfl) rfl hok
  exact ⟨h1, h2, keepKey_iff nameParts⟩

/-- C19, at a forest with the leaves `/skydns/local/east/web`, `/skydns/local/east/db` and
`/skydns/local/west/web` and the segments of `web.*.local`: the filtered walk returns the
two `web` records of the unfiltered walk. -/
theorem C19_star_is_filter_witness :
    loopNodes exampleLib
        [dir "/skydns/local/east"
          [leaf1 "/skydns/local/east/web" 0, leaf2 "/skydns/local/east/db" 0],
         dir "/skydns/local/west" [leaf1 "/skydns/local/west/web" 0]]
        ["", "skydns", "local", "*", "web"] false [] =
      ([record1 "/skydns/local/east/web", record2 "/skydns/local/east/db",
        record1 "/skydns/local/west/web"], none) ∧
    loopNodes exampleLib
        [dir "/skydns/local/east"
          [leaf1 "/skydns/local/east/web" 0, leaf2 "/skydns/local/east/db" 0],
         dir "/skydns/local/west" [leaf1 "/skydns/local/west/web" 0]]
        ["", "skydns", "local", "*", "web"] true [] =
      ([record1 "/skydns/local/east/web", record1 "/skydns/local/west/web"], none) ∧
    (loopNodes exampleLib
        [dir "/skydns/local/east"
          [leaf1 "/skydns/local/east/web" 0, leaf2 "/skydns/local/east/db" 0],
         dir "/skydns/local/west" [leaf1 "/skydns/local/west/web" 0]]
        ["", "skydns", "local", "*", "web"] true []).1 =
      (loopNodes exampleLib
        [dir "/skydns/local/east"
          [leaf1 "/skydns/local/east/web" 0, leaf2 "/skydns/local/east/db" 0],
         dir "/skydns/local/west" [leaf1 "/skydns/local/west/web" 0]]
        ["", "skydns", "local", "*", "web"] false []).1.filter
        (keepKey ["", "skydns", "local", "*", "web"]) :=
  ⟨by decide, by decide,
   (C19_star_is_filter exampleLib
      [dir "/skydns/local/east"
        [leaf1 "/skydns/local/east/web" 0, leaf2 "/skydns/local/east/db" 0],
       dir "/skydns/local/west" [leaf1 "/skydns/local/west/web" 0]]
      ["", "skydns", "local", "*", "web"] [] (by decide)).2.1⟩

/-- C11, as stated, fails at the TXT query `_acme-challenge.a1.lb.rancher.cloud.` with bound
4: no zone is a prefix of the name and the guard of the probe fails (the query is a TXT
query), so no probe is issued; but the one read does not go to the path of the name, it goes
to the path of the name rebuilt by lines 98-113. -/
theorem C11_counterexample :
    noZonePrefix (exampleEtcd leafStore 4) "_acme-challenge.a1.lb.rancher.cloud." ∧
    ¬ probeGuard exampleLib (exampleEtcd leafStore 4)
      ⟨"_acme-challenge.a1.lb.rancher.cloud.", 16⟩ ∧
    (exampleEtcd leafStore 4).Records exampleLib ⟨"_acme-challenge.a1.lb.rancher.cloud.", 16⟩
        false =
      some (([record1 "/skydns/cloud/rancher/lb/a1/api"], none),
        ["/skydns/_txt/_acme-challenge/a1/lb/rancher/cloud"]) ∧
    (exampleLib.PathWithWildcard "_acme-challenge.a1.lb.rancher.cloud." "skydns").1 =
      "/skydns/cloud/rancher/lb/a1/_acme-challenge" ∧
    ¬ ∃ ret, (exampleEtcd leafStore 4).Records exampleLib
        ⟨"_acme-challenge.a1.lb.rancher.cloud.", 16⟩ false =
      some (ret, [(exampleLib.PathWithWildcard "_acme-challenge.a1.lb.rancher.cloud."
        (exampleEtcd leafStore 4).PathPrefix).1]) := by
  have hrec : (exampleEtcd leafStore 4).Records exampleLib
      ⟨"_acme-challenge.a1.lb.rancher.cloud.", 16⟩ false =
      some (([record1 "/skydns/cloud/rancher/lb/a1/api"], none),
        ["/skydns/_txt/_acme-challenge/a1/lb/rancher/cloud"]) := by decide
  refine ⟨(noZonePrefix_iff _ _).2 (by decide), fun h => h.2.1 rfl, hrec, by decide, ?_⟩
  rintro ⟨ret, h⟩
  rw [hrec] at h
  injection h with h
  injection h with _ h
  revert h
  decide

/-- C11, amended: for a query whose name (a DNS name, of at most 127 labels) has no zone as a
prefix, with a bound that is an `int8`. `Records` issues the probe if and only if the bound
is positive, the query is not a TXT query and the name has more labels than the bound; the
probe is then its first read, and another read follows. When one of the three fails, no
probe is issued, the name is not rewritten to a wildcard form, and `Records` issues one
read, at the path `msg.PathWithWildcard` gives for the name itself, or, for a TXT query whose
name contains `_acme-challenge`, for the name rebuilt by lines 98-113. -/
theorem C11_probe_guard (lib : Lib) (e : Etcd) (state : Request) (exact : Bool)
    (hz : noZonePrefix e state.Name)
    (h127 : (lib.SplitDomainName state.Name).length ≤ 127)
    (hrange : e.WildcardBound ≤ 127) :
    ((∃ name subPath hsd, e.planWildcard lib state.Name state.QType =
        some (name, subPath, hsd, [probeRoot lib e state.Name])) ↔ probeGuard lib e state) ∧
    (probeGuard lib e state →
      ∃ ret rest, e.Records lib state exact =
        some (ret, probeRoot lib e state.Name :: rest) ∧ rest ≠ []) ∧
    (¬ probeGuard lib e state →
      e.planWildcard lib state.Name state.QType = some (state.Name, "", false, []) ∧
      (∃ ret, e.Records lib state exact =
        some (ret,
          [(lib.PathWithWildcard (acmeRewrite lib state.Name state.QType) e.PathPrefix).1])) ∧
      (¬ (state.QType = TypeTXT ∧ occursIn "_acme-challenge" state.Name) →
        acmeRewrite lib state.Name state.QType = state.Name)) := by
  have hplain : ¬ probeGuard lib e state →
      e.planWildcard lib state.Name state.QType = some (state.Name, "", false, []) := by
    intro hg
    apply plan_plain
    intro hc
    exact hg ((guard_iff _ _ _ h127 hrange).1 hc)
  have hguard : probeGuard lib e state →
      ∃ name subPath hsd,
        e.planWildcard lib state.Name state.QType =
          some (name, subPath, hsd, [probeRoot lib e state.Name]) ∧
        (hsd = true → name = state.Name) := by
    rintro ⟨hb, hq, hlen⟩
    by_cases hc : (e.hasSubDomains lib [] state.Name).1 ≠ "" ∧ ¬ occursIn "*" state.Name
    · exact ⟨_, _, _, plan_flat lib e state.Name state.QType hb hq hlen h127 hc.1 hc.2,
        fun _ => rfl⟩
    · have hc2 : (e.hasSubDomains lib [] state.Name).1 = "" ∨ occursIn "*" state.Name := by
        by_cases h1 : (e.hasSubDomains lib [] state.Name).1 = ""
        · exact Or.inl h1
        · right
          by_contra h2
          exact hc ⟨h1, h2⟩
      exact ⟨_, _, _, plan_wild lib e state.Name state.QType hb hq hlen h127 hc2,
        fun h => absurd h (by simp)⟩
  refine ⟨⟨?_, ?_⟩, ?_, ?_⟩
  · rintro ⟨name, subPath, hsd, hp⟩
    by_contra hg
    rw [hplain hg] at hp
    simp at hp
  · intro hg
    obtain ⟨name, subPath, hsd, hp, _⟩ := hguard hg
    exact ⟨name, subPath, hsd, hp⟩
  · intro hg
    obtain ⟨name, subPath, hsd, hp, hname⟩ := hguard hg
    have hrec := Records_eq lib e state exact hz _ _ _ _ hp
    rw [acmeRewrite_other lib _ _ hg.2.1] at hrec
    obtain ⟨ret, rest, hr⟩ := readAndWalk_some lib e exact name hsd
      (e.planPath lib name subPath hsd).1 (e.planPath lib name subPath hsd).2.1
      (e.planPath lib name subPath hsd).2.2 [probeRoot lib e state.Name]
      (by
        intro hs
        have hb : 0 < e.WildcardBound := hg.1
        have hlen : e.WildcardBound < (lib.SplitDomainName state.Name).length := hg.2.2
        rw [hname hs, int8_start _ _ hb hlen h127]
        omega)
    rw [hr] at hrec
    exact ⟨ret, (e.planPath lib name subPath hsd).1 :: rest, by rw [hrec]; rfl, by simp⟩
  · intro hg
    have hp := hplain hg
    refine ⟨hp, ?_, ?_⟩
    · have hrec := Records_eq lib e state exact hz _ _ _ _ hp
      rw [planPath_plain] at hrec
      simp only at hrec
      obtain ⟨ret, rest, hr⟩ := readAndWalk_some lib e exact
        (acmeRewrite lib state.Name state.QType) false
        (lib.PathWithWildcard (acmeRewrite lib state.Name state.QType) e.PathPrefix).1
        (Split (lib.Path (acmeRewrite lib state.Name state.QType) e.PathPrefix) '/')
        (lib.PathWithWildcard (acmeRewrite lib state.Name state.QType) e.PathPrefix).2 []
        (fun h => absurd h (by simp))
      cases hget : e.Client.Get []
          (lib.PathWithWildcard (acmeRewrite lib state.Name state.QType) e.PathPrefix).1
          true with
      | ok r =>
        rw [readAndWalk_ok lib e exact _ _ _ _ _ _ r hget] at hrec
        exact ⟨_, by rw [hrec]; rfl⟩
      | error err =>
        rw [readAndWalk_error lib e exact _ _ _ _ _ _ err hget (by simp)] at hrec
        exact ⟨_, by rw [hrec]; rfl⟩
    · intro hno
      unfold acmeRewrite
      rw [if_neg]
      rintro ⟨h1, h2⟩
      exact hno ⟨h1, (contains_iff _ _).1 h2⟩

/-- C11 amended, at the query `api.a1.lb.rancher.cloud.`: with bound 4 the probe is the
first of the reads, and with bound 5 the one read is at the path of the name. -/
theorem C11_probe_guard_witness :
    (∃ ret rest, (exampleEtcd hitStore 4).Records exampleLib ⟨"api.a1.lb.rancher.cloud.", 1⟩
        false =
      some (ret, "/skydns/_sub/cloud/rancher/lb/a1" :: rest) ∧ rest ≠ []) ∧
    (exampleEtcd leafStore 5).planWildcard exampleLib "api.a1.lb.rancher.cloud." 1 =
      some ("api.a1.lb.rancher.cloud.", "", false, []) ∧
    ∃ ret, (exampleEtcd leafStore 5).Records exampleLib ⟨"api.a1.lb.rancher.cloud.", 1⟩
        false =
      some (ret, ["/skydns/cloud/rancher/lb/a1/api"]) :=
  ⟨(C11_probe_guard exampleLib (exampleEtcd hitStore 4) ⟨"api.a1.lb.rancher.cloud.", 1⟩ false
      ((noZonePrefix_iff _ _).2 (by decide)) (by decide) (by decide)).2.1
      ⟨by decide, by decide, by decide⟩,
   ((C11_probe_guard exampleLib (exampleEtcd leafStore 5) ⟨"api.a1.lb.rancher.cloud.", 1⟩
      false ((noZonePrefix_iff _ _).2 (by decide)) (by decide) (by decide)).2.2
      (fun h => absurd h.2.2 (by decide))).1,
   ((C11_probe_guard exampleLib (exampleEtcd leafStore 5) ⟨"api.a1.lb.rancher.cloud.", 1⟩
      false ((noZonePrefix_iff _ _).2 (by decide)) (by decide) (by decide)).2.2
      (fun h => absurd h.2.2 (by decide))).2.1⟩

/-- C13: a query that is not a TXT query and not exact, with bound `b > 0`, a name of more
than `b` (and, as a DNS name, at most 127) labels that has no zone as a prefix and contains no
`*`, for which the probe finds a subtree and the read of the flattened-subdomain path returns
a directory. `Records` issues that one read after the probe and no fallback read, and returns
`loopNodes` over the children of the directory with `star` false: no leaf is filtered, the
walk fails exactly when a leaf of the subtree does not decode, and on success every leaf of
the subtree decodes and has its record in the result. -/
theorem C13_flattened_directory (lib : Lib) (e : Etcd) (state : Request) (resp : Response)
    (hb : 0 < e.WildcardBound) (hq : state.QType ≠ TypeTXT)
    (hlen : e.WildcardBound < (lib.SplitDomainName state.Name).length)
    (h127 : (lib.SplitDomainName state.Name).length ≤ 127)
    (hz : noZonePrefix e state.Name)
    (hprobe : (e.hasSubDomains lib [] state.Name).1 ≠ "")
    (hstar : ¬ occursIn "*" state.Name)
    (hget : e.Client.Get [probeRoot lib e state.Name] (flatPath lib e state.Name) true =
      .ok resp)
    (hdir : resp.Node.Dir = true) :
    e.Records lib state false =
      some (loopNodes lib resp.Node.Nodes (Split (flatPath lib e state.Name) '/') false [],
        [probeRoot lib e state.Name, flatPath lib e state.Name]) ∧
    (∀ n, passesFilter (Split (flatPath lib e state.Name) '/') false n) ∧
    ((∃ err, (loopNodes lib resp.Node.Nodes (Split (flatPath lib e state.Name) '/')
        false []).2 = some err) ↔
      ∃ n ∈ leaves resp.Node.Nodes, ∃ m, lib.Unmarshal n.Value = .error m) ∧
    ((loopNodes lib resp.Node.Nodes (Split (flatPath lib e state.Name) '/') false []).2 =
        none →
      ∀ n ∈ leaves resp.Node.Nodes, ∃ d, lib.Unmarshal n.Value = .ok d ∧
        ∃ s ∈ (loopNodes lib resp.Node.Nodes (Split (flatPath lib e state.Name) '/')
          false []).1, s.Key = n.Key) := by
  have hplan := plan_flat lib e state.Name state.QType hb hq hlen h127 hprobe hstar
  have hrec := Records_eq lib e state false hz _ _ _ _ hplan
  rw [acmeRewrite_other lib _ _ hq, planPath_flat] at hrec
  simp only at hrec
  rw [readAndWalk_ok lib e false _ _ _ _ _ _ resp hget] at hrec
  refine ⟨?_, fun n h => absurd h (by simp), loopNodes_unfiltered_error_iff lib _ _ _, ?_⟩
  · rw [hrec]
    simp [hdir]
  · intro hok n hn
    have hok2 := hok
    rw [loopNodes_eq_walk] at hok2
    obtain ⟨d, hd⟩ := (walk_error lib _ false (leaves resp.Node.Nodes) [] []).2 hok2 n hn
      (fun h => absurd h (by simp))
    obtain ⟨s, hs, hk, _⟩ := loopNodes_complete lib resp.Node.Nodes _ false hok n d hn
      (fun h => absurd h (by simp)) hd
    exact ⟨d, hd, s, hs, hk⟩

/-- C13, at the query `api.a1.lb.rancher.cloud.` with bound 4 and a store where the probe
finds a subtree and the flattened path holds a directory with one leaf: two reads, and the
record of the leaf. -/
theorem C13_flattened_directory_witness :
    (exampleEtcd hitStore 4).Records exampleLib ⟨"api.a1.lb.rancher.cloud.", 1⟩ false =
      some (([record1 "/skydns/_sub/cloud/rancher/lb/a1/api/x1"], none),
        ["/skydns/_sub/cloud/rancher/lb/a1", "/skydns/_sub/cloud/rancher/lb/a1/api"]) :=
  (C13_flattened_directory exampleLib (exampleEtcd hitStore 4) ⟨"api.a1.lb.rancher.cloud.", 1⟩
    ⟨dir "/skydns/_sub/cloud/rancher/lb/a1/api"
      [leaf1 "/skydns/_sub/cloud/rancher/lb/a1/api/x1" 0]⟩
    (by decide) (by decide) (by decide) (by decide) ((noZonePrefix_iff _ _).2 (by decide))
    (by decide) ((contains_false_iff _ _).1 (by decide)) rfl rfl).1

/-- C14: `hasSubDomains` issues one read, at the probe root (`msg.RootPathSubDomain` of the
name, the bound and the prefix). It returns `""` for every error of that read and for a node
without children, and the probe root for a node with at least one child; so, the probe root
being a path and not the empty string, it returns the probe root if and only if the read
succeeds with a node that has a child. When the probe of a query fails or finds no child,
`Records` returns no probe error: it goes on with the generic-wildcard name, as without a
subtree, and what it returns is what the read of that path and the walk give. -/
theorem C14_probe_is_silent (lib : Lib) (e : Etcd) (state : Request) (exact : Bool)
    (log : List String) :
    (e.hasSubDomains lib log state.Name).2 = log ++ [probeRoot lib e state.Name] ∧
    (∀ err, e.Client.Get log (probeRoot lib e state.Name) true = .error err →
      (e.hasSubDomains lib log state.Name).1 = "") ∧
    (∀ resp, e.Client.Get log (probeRoot lib e state.Name) true = .ok resp →
      resp.Node.Nodes = [] → (e.hasSubDomains lib log state.Name).1 = "") ∧
    (∀ resp, e.Client.Get log (probeRoot lib e state.Name) true = .ok resp →
      resp.Node.Nodes ≠ [] →
      (e.hasSubDomains lib log state.Name).1 = probeRoot lib e state.Name) ∧
    (probeRoot lib e state.Name ≠ "" →
      ((e.hasSubDomains lib log state.Name).1 = probeRoot lib e state.Name ↔
        ∃ resp, e.Client.Get log (probeRoot lib e state.Name) true = .ok resp ∧
          resp.Node.Nodes ≠ [])) ∧
    (probeGuard lib e state → (lib.SplitDomainName state.Name).length ≤ 127 →
      noZonePrefix e state.Name →
      ((∃ err, e.Client.Get [] (probeRoot lib e state.Name) true = .error err) ∨
        (∃ resp, e.Client.Get [] (probeRoot lib e state.Name) true = .ok resp ∧
          resp.Node.Nodes = [])) →
      e.planWildcard lib state.Name state.QType =
        some (wildcardName e.WildcardBound (lib.SplitDomainName state.Name), "", false,
          [probeRoot lib e state.Name]) ∧
      e.Records lib state exact =
        e.readAndWalk lib exact
          (wildcardName e.WildcardBound (lib.SplitDomainName state.Name)) false
          (lib.PathWithWildcard
            (wildcardName e.WildcardBound (lib.SplitDomainName state.Name)) e.PathPrefix).1
          (Split (lib.Path
            (wildcardName e.WildcardBound (lib.SplitDomainName state.Name)) e.PathPrefix) '/')
          (lib.PathWithWildcard
            (wildcardName e.WildcardBound (lib.SplitDomainName state.Name)) e.PathPrefix).2
          [probeRoot lib e state.Name]) := by
  refine ⟨hasSubDomains_log lib e log state.Name,
    fun err h => hasSubDomains_error lib e log state.Name err h,
    fun resp h hn => hasSubDomains_childless lib e log state.Name resp h hn,
    fun resp h hn => hasSubDomains_found lib e log state.Name resp h hn, ?_, ?_⟩
  · intro hroot
    constructor
    · intro hres
      cases hget : e.Client.Get log (probeRoot lib e state.Name) true with
      | error err =>
        rw [hasSubDomains_error lib e log state.Name err hget] at hres
        exact absurd hres.symm hroot
      | ok resp =>
        by_cases hn : resp.Node.Nodes = []
        · rw [hasSubDomains_childless lib e log state.Name resp hget hn] at hres
          exact absurd hres.symm hroot
        · exact ⟨resp, rfl, hn⟩
    · rintro ⟨resp, hget, hn⟩
      exact hasSubDomains_found lib e log state.Name resp hget hn
  · rintro ⟨hb, hq, hlen⟩ h127 hz hfail
    have hempty : (e.hasSubDomains lib [] state.Name).1 = "" := by
      rcases hfail with ⟨err, h⟩ | ⟨resp, h, hn⟩
      · exact hasSubDomains_error lib e [] state.Name err h
      · exact hasSubDomains_childless lib e [] state.Name resp h hn
    have hplan := plan_wild lib e state.Name state.QType hb hq hlen h127 (Or.inl hempty)
    rw [hempty] at hplan
    refine ⟨hplan, ?_⟩
    have hrec := Records_eq lib e state exact hz _ _ _ _ hplan
    rw [acmeRewrite_other lib _ _ hq, planPath_plain] at hrec
    exact hrec

/-- C14, at the query `api.a1.lb.rancher.cloud.` with bound 4 and a store whose probe runs
into the timeout: `hasSubDomains` returns `""`, and `Records` returns the record found under
the generic-wildcard path, with no error. -/
theorem C14_probe_is_silent_witness :
    ((exampleEtcd probeFailStore 4).hasSubDomains exampleLib [] "api.a1.lb.rancher.cloud.").1 =
      "" ∧
    (exampleEtcd probeFailStore 4).Records exampleLib ⟨"api.a1.lb.rancher.cloud.", 1⟩ false =
      some (([record1 "/skydns/cloud/rancher/lb/a1/x1"], none),
        ["/skydns/_sub/cloud/rancher/lb/a1", "/skydns/cloud/rancher/lb/a1/*"]) :=
  ⟨(C14_probe_is_silent exampleLib (exampleEtcd probeFailStore 4)
      ⟨"api.a1.lb.rancher.cloud.", 1⟩ false []).2.1 deadlineExceeded rfl,
   ((C14_probe_is_silent exampleLib (exampleEtcd probeFailStore 4)
      ⟨"api.a1.lb.rancher.cloud.", 1⟩ false []).2.2.2.2.2
      ⟨by decide, by decide, by decide⟩ (by decide) ((noZonePrefix_iff _ _).2 (by decide))
      (Or.inl ⟨deadlineExceeded, rfl⟩)).2⟩

/-- C15: for a name of at most 127 labels and a bound that is an `int8`, whenever the test of
line 89 holds (the wildcard rewrites of lines 94 and 132 are reached only then), the start
index `int8(len) - WildcardBound` is the difference of the two numbers, without overflow, and
lies strictly between 0 and the number of labels. The slice is in bounds and holds the
rightmost `WildcardBound` labels, so the name rewritten at line 94 and at line 133 is `*.`
followed by these labels joined by dots, and `Records` returns without a panic. -/
theorem C15_wildcard_slice (lib : Lib) (e : Etcd) (state : Request) (exact : Bool)
    (h127 : (lib.SplitDomainName state.Name).length ≤ 127)
    (hrange : e.WildcardBound ≤ 127)
    (hguard : e.WildcardBound > 0 ∧ state.QType ≠ TypeTXT ∧
      int8 (int8 (lib.SplitDomainName state.Name).length - e.WildcardBound) > 0) :
    int8 (lib.SplitDomainName state.Name).length = (lib.SplitDomainName state.Name).length ∧
    int8 (int8 (lib.SplitDomainName state.Name).length - e.WildcardBound) =
      (lib.SplitDomainName state.Name).length - e.WildcardBound ∧
    0 < ((lib.SplitDomainName state.Name).length : Int) - e.WildcardBound ∧
    ((lib.SplitDomainName state.Name).length : Int) - e.WildcardBound <
      (lib.SplitDomainName state.Name).length ∧
    sliceFrom (lib.SplitDomainName state.Name)
        (int8 (int8 (lib.SplitDomainName state.Name).length - e.WildcardBound)) =
      some (rightmost e.WildcardBound (lib.SplitDomainName state.Name)) ∧
    ((rightmost e.WildcardBound (lib.SplitDomainName state.Name)).length : Int) =
      e.WildcardBound ∧
    ((e.hasSubDomains lib [] state.Name).1 = "" ∨ occursIn "*" state.Name →
      e.planWildcard lib state.Name state.QType =
        some ("*." ++ Join (rightmost e.WildcardBound (lib.SplitDomainName state.Name)) ".",
          (e.hasSubDomains lib [] state.Name).1, false, [probeRoot lib e state.Name])) ∧
    (∀ (path : String) (segments : List String) (star : Bool) (log : List String)
        (err : GoError),
      e.Client.Get log path true = .error err → IsKeyNotFound err = true →
      ∃ ret, e.readAndWalk lib exact state.Name true path segments star log =
        some (ret, log ++ [path] ++
          [(lib.PathWithWildcard
            ("*." ++ Join (rightmost e.WildcardBound (lib.SplitDomainName state.Name)) ".")
            e.PathPrefix).1])) ∧
    (∃ r, e.Records lib state exact = some r) := by
  obtain ⟨hb, hq, hlen⟩ := (guard_iff _ _ _ h127 hrange).1 hguard
  have hs := int8_start _ _ hb hlen h127
  refine ⟨by unfold int8; omega, hs, by omega, by omega, ?_, ?_, ?_, ?_,
    Records_some lib e state exact h127 hrange⟩
  · rw [hs]
    exact sliceFrom_rightmost _ _ hb hlen
  · unfold rightmost
    rw [List.length_drop]
    omega
  · intro h
    exact plan_wild lib e state.Name state.QType hb hq hlen h127 h
  · intro path segments star log err hget hnf
    rw [readAndWalk_fallback lib e exact state.Name path segments star log err hb hlen h127
      hget hnf]
    split
    · exact ⟨_, rfl⟩
    · exact ⟨_, rfl⟩

/-- C15, at the name `api.a1.lb.rancher.cloud.` (five labels) with bound 4: the start index
is 1, the slice holds the four rightmost labels, and the rewritten name is
`*.a1.lb.rancher.cloud`. -/
theorem C15_wildcard_slice_witness :
    int8 (int8 (5 : Nat) - 4) = (5 : Nat) - 4 ∧
    sliceFrom ["api", "a1", "lb", "rancher", "cloud"] (int8 (int8 (5 : Nat) - 4)) =
      some ["a1", "lb", "rancher", "cloud"] ∧
    (exampleEtcd emptyStore 4).planWildcard exampleLib "api.a1.lb.rancher.cloud." 1 =
      some ("*.a1.lb.rancher.cloud", "", false, ["/skydns/_sub/cloud/rancher/lb/a1"]) :=
  ⟨(C15_wildcard_slice exampleLib (exampleEtcd emptyStore 4) ⟨"api.a1.lb.rancher.cloud.", 1⟩
      false (by decide) (by decide) (by decide)).2.1,
   (C15_wildcard_slice exampleLib (exampleEtcd emptyStore 4) ⟨"api.a1.lb.rancher.cloud.", 1⟩
      false (by decide) (by decide) (by decide)).2.2.2.2.1,
   (C15_wildcard_slice exampleLib (exampleEtcd emptyStore 4) ⟨"api.a1.lb.rancher.cloud.", 1⟩
      false (by decide) (by decide) (by decide)).2.2.2.2.2.2.1 (Or.inl (by decide))⟩

/-- C18: for a query past the zones (with a bound that is an `int8`) whose read of the
planned path fails. A fallback read, one more read after it, is issued if and only if the
plan was the flattened-subdomain path and the error is the key-not-found error of the store.
For every other error (any error when the plan is not the flattened-subdomain path, an error
that is not key-not-found when it is) `Records` returns exactly that error with no record,
and reads nothing more. -/
theorem C18_fallback_iff (lib : Lib) (e : Etcd) (state : Request) (exact : Bool)
    (name subPath : String) (hsd : Bool) (log : List String) (err : GoError)
    (hrange : e.WildcardBound ≤ 127)
    (hz : noZonePrefix e state.Name)
    (hplan : e.planWildcard lib state.Name state.QType = some (name, subPath, hsd, log))
    (hread : e.Client.Get log
      (e.planPath lib (acmeRewrite lib name state.QType) subPath hsd).1 true = .error err) :
    ((∃ ret extra, e.Records lib state exact =
        some (ret, log ++ [(e.planPath lib (acmeRewrite lib name state.QType) subPath hsd).1]
          ++ [extra])) ↔
      (hsd = true ∧ IsKeyNotFound err = true)) ∧
    (¬ (hsd = true ∧ IsKeyNotFound err = true) →
      e.Records lib state exact =
        some (([], some err),
          log ++ [(e.planPath lib (acmeRewrite lib name state.QType) subPath hsd).1])) ∧
    (hsd = true →
      (e.planPath lib (acmeRewrite lib name state.QType) subPath hsd).1 =
        flatPath lib e state.Name) ∧
    (hsd = false →
      (e.planPath lib (acmeRewrite lib name state.QType) subPath hsd).1 =
        (lib.PathWithWildcard (acmeRewrite lib name state.QType) e.PathPrefix).1) := by
  have hrec := Records_eq lib e state exact hz _ _ _ _ hplan
  have hother : ¬ (hsd = true ∧ IsKeyNotFound err = true) →
      e.Records lib state exact =
        some (([], some err),
          log ++ [(e.planPath lib (acmeRewrite lib name state.QType) subPath hsd).1]) := by
    intro hno
    rw [hrec, readAndWalk_error lib e exact _ _ _ _ _ _ err hread hno]
  refine ⟨⟨?_, ?_⟩, hother, ?_, ?_⟩
  · rintro ⟨ret, extra, h⟩
    by_contra hno
    rw [hother hno] at h
    injection h with h
    injection h with _ h
    have hl := congrArg List.length h
    simp at hl
  · rintro ⟨h1, hnf⟩
    subst h1
    obtain ⟨hg, hn, _, _, _⟩ := plan_true_inv lib e state.Name state.QType name subPath log hplan
    have hname : acmeRewrite lib name state.QType = state.Name := by
      rw [acmeRewrite_other lib _ _ hg.2.1, hn]
    obtain ⟨ret, extra, hr⟩ := readAndWalk_fallback_some lib e exact
      (acmeRewrite lib name state.QType)
      (e.planPath lib (acmeRewrite lib name state.QType) subPath true).1
      (e.planPath lib (acmeRewrite lib name state.QType) subPath true).2.1
      (e.planPath lib (acmeRewrite lib name state.QType) subPath true).2.2 log err
      (by
        rw [hname]
        exact ⟨Int.le_of_lt hg.2.2, start_bounds _ _ hg.1 hrange hg.2.2⟩)
      hread hnf
    exact ⟨ret, extra, by rw [hrec, hr]⟩
  · intro h1
    subst h1
    obtain ⟨hg, hn, hsp, _, _⟩ :=
      plan_true_inv lib e state.Name state.QType name subPath log hplan
    rw [acmeRewrite_other lib _ _ hg.2.1, hn, hsp, planPath_flat]
  · intro h1
    subst h1
    rw [planPath_plain]

/-- C18, at the query `api.a1.lb.rancher.cloud.` with bound 4: when the read of the flattened
path misses, a third read follows; when it runs into the timeout, `Records` returns the
timeout after two reads. -/
theorem C18_fallback_iff_witness :
    (∃ ret extra, (exampleEtcd missStore 4).Records exampleLib
        ⟨"api.a1.lb.rancher.cloud.", 1⟩ false =
      some (ret, ["/skydns/_sub/cloud/rancher/lb/a1"] ++
        ["/skydns/_sub/cloud/rancher/lb/a1/api"] ++ [extra])) ∧
    (exampleEtcd timeoutStore 4).Records exampleLib ⟨"api.a1.lb.rancher.cloud.", 1⟩ false =
      some (([], some deadlineExceeded),
        ["/skydns/_sub/cloud/rancher/lb/a1"] ++ ["/skydns/_sub/cloud/rancher/lb/a1/api"]) :=
  ⟨(C18_fallback_iff exampleLib (exampleEtcd missStore 4) ⟨"api.a1.lb.rancher.cloud.", 1⟩
      false "api.a1.lb.rancher.cloud." "/skydns/_sub/cloud/rancher/lb/a1" true
      ["/skydns/_sub/cloud/rancher/lb/a1"] keyNotFound (by decide)
      ((noZonePrefix_iff _ _).2 (by decide)) (by decide) rfl).1.2 ⟨rfl, by decide⟩,
   (C18_fallback_iff exampleLib (exampleEtcd timeoutStore 4) ⟨"api.a1.lb.rancher.cloud.", 1⟩
      false "api.a1.lb.rancher.cloud." "/skydns/_sub/cloud/rancher/lb/a1" true
      ["/skydns/_sub/cloud/rancher/lb/a1"] deadlineExceeded (by decide)
      ((noZonePrefix_iff _ _).2 (by decide)) (by decide) rfl).2.1 (by decide)⟩

/-- C20: when the read of the planned path succeeds and the fetched node is a leaf, `Records`
walks the list of that one node with the filter off, whatever star flag the construction of
the path returned: it returns the result of `loopNodes` with `star` false, which for a
payload that decodes is exactly one record, with the key of the leaf, whatever the key and
the query segments are; for a payload that does not decode it is the error of the decoder. -/
theorem C20_single_leaf (lib : Lib) (e : Etcd) (state : Request) (exact : Bool)
    (name subPath : String) (hsd : Bool) (log : List String) (resp : Response)
    (hz : noZonePrefix e state.Name)
    (hplan : e.planWildcard lib state.Name state.QType = some (name, subPath, hsd, log))
    (hread : e.Client.Get log
      (e.planPath lib (acmeRewrite lib name state.QType) subPath hsd).1 true = .ok resp)
    (hleaf : resp.Node.Dir = false) :
    e.Records lib state exact =
      some (loopNodes lib [resp.Node]
          (e.planPath lib (acmeRewrite lib name state.QType) subPath hsd).2.1 false [],
        log ++ [(e.planPath lib (acmeRewrite lib name state.QType) subPath hsd).1]) ∧
    (∀ d, lib.Unmarshal resp.Node.Value = .ok d →
      e.Records lib state exact =
        some (([emitted resp.Node d], none),
          log ++ [(e.planPath lib (acmeRewrite lib name state.QType) subPath hsd).1]) ∧
      (emitted resp.Node d).Key = resp.Node.Key) ∧
    (∀ m, lib.Unmarshal resp.Node.Value = .error m →
      e.Records lib state exact =
        some (([], some (.errorString (resp.Node.Key ++ ": " ++ m))),
          log ++ [(e.planPath lib (acmeRewrite lib name state.QType) subPath hsd).1])) := by
  have hrec := Records_eq lib e state exact hz _ _ _ _ hplan
  rw [readAndWalk_ok lib e exact _ _ _ _ _ _ resp hread] at hrec
  simp only [hleaf, Bool.false_eq_true, and_false, if_false] at hrec
  refine ⟨hrec, ?_, ?_⟩
  · intro d hd
    rw [hrec, loopNodes_single_leaf lib resp.Node _ d hleaf hd]
    exact ⟨rfl, rfl⟩
  · intro m hm
    rw [hrec, loopNodes_single_bad lib resp.Node _ m hleaf hm]

/-- C20, at the wildcard query `*.a1.lb.rancher.cloud.` and a store that answers with the
leaf `/skydns/cloud/rancher/lb/a1`: the star flag of the path is true and the key of the
leaf has fewer segments than the query, so that the filtered walk would skip it, and
`Records` returns its record. -/
theorem C20_single_leaf_witness :
    (exampleLib.PathWithWildcard "*.a1.lb.rancher.cloud." "skydns").2 = true ∧
    loopNodes exampleLib [leaf1 "/skydns/cloud/rancher/lb/a1" 0]
        (Split (exampleLib.Path "*.a1.lb.rancher.cloud." "skydns") '/') true [] =
      ([], none) ∧
    (exampleEtcd apexLeafStore 0).Records exampleLib ⟨"*.a1.lb.rancher.cloud.", 1⟩ false =
      some (([record1 "/skydns/cloud/rancher/lb/a1"], none),
        ["/skydns/cloud/rancher/lb/a1/*"]) :=
  ⟨by decide, by decide,
   ((C20_single_leaf exampleLib (exampleEtcd apexLeafStore 0) ⟨"*.a1.lb.rancher.cloud.", 1⟩
      false "*.a1.lb.rancher.cloud." "" false [] ⟨leaf1 "/skydns/cloud/rancher/lb/a1" 0⟩
      ((noZonePrefix_iff _ _).2 (by decide)) (by decide) rfl rfl).2.1 payload1 rfl).1⟩

end CoreDNS
